import Mathlib

/-!
A verification development for the go-f3 GPBFT core.

The Go sources under `gpbft/gpbft.go`, `gpbft/chain.go` and
`internal/encoding/encoding.go` are shallowly embedded below.  Machine
integers (`int64`, `uint64`, `uint32`) are modelled as `Int`/`Nat`; the one
place where the Go code can overflow in a way visible to the claims — the
product `2*whole` inside `IsStrongQuorum` — carries an explicit two's
complement wrap.  Go maps are modelled as association lists: a fresh key is
appended at the end, an existing key is updated in place.  Functions that
iterate over a Go map (whose iteration order is unspecified) therefore
iterate in insertion order here.  Go `panic` is modelled as a `fatal`
outcome that carries the state at the point of the panic; Go `error`
returns are ordinary values.

Types that the instance code uses but whose definitions are not part of
the sources (`PowerTable`, `Payload`, `GMessage`, `Justification`,
`SupplementalData`, the participant configuration, the error taxonomy and
the ticket-rank function) are modelled from the specification; each such
definition says so in its doc comment.
-/

/-! ## Basic byte-string helpers -/

/-- Byte strings are lists of naturals (each conceptually < 256). -/
abbrev Bytes := List Nat

/-- Big-endian encoding of a natural number into a fixed number of bytes,
as produced by `binary.Write(..., binary.BigEndian, ...)` in Go. -/
def natToBE : Nat → Nat → Bytes
  | 0, _ => []
  | k + 1, n => natToBE k (n / 256) ++ [n % 256]

/-- Two's complement wrap into the signed 64-bit range, the behaviour of
Go `int64` arithmetic on overflow. -/
def wrap64 (x : Int) : Int := (x + 2 ^ 63) % 2 ^ 64 - 2 ^ 63

/-- The `uint64` bit pattern of an `int64` value, used when serialising an
epoch with `binary.BigEndian`. -/
def int64Bits (x : Int) : Nat := (x % 2 ^ 64).toNat

/-! ## Quorum arithmetic (gpbft.go `divCeil`, `IsStrongQuorum`, `hasWeakQuorum`) -/

/-- Go `divCeil`: truncated division (`Int.tdiv`/`Int.tmod` match Go's `/`
and `%` on `int64`) plus one when the remainder is non-zero. -/
def divCeil (a b : Int) : Int :=
  let quo := a.tdiv b
  let rem := a.tmod b
  if rem ≠ 0 then quo + 1 else quo

/-- Go `IsStrongQuorum`: the product `2*whole` is computed in `int64` and
may wrap; the wrap is explicit here. -/
def IsStrongQuorum (part whole : Int) : Bool :=
  part ≥ divCeil (wrap64 (2 * whole)) 3

/-- Go `hasWeakQuorum`. -/
def hasWeakQuorum (part whole : Int) : Bool :=
  part > divCeil whole 3

/-- Mathematical ceiling division (for a positive divisor), used to state
the specification's `⌈2n/3⌉` and `⌈n/3⌉`. -/
def ceilDiv (a b : Int) : Int := -((-a).fdiv b)

theorem ceilDiv_three (a : Int) : ceilDiv a 3 = (a + 2) / 3 := by
  unfold ceilDiv
  rw [Int.fdiv_eq_ediv]
  · omega
  · omega

theorem divCeil_three_of_nonneg (a : Int) (h : 0 ≤ a) : divCeil a 3 = ceilDiv a 3 := by
  simp only [divCeil]
  rw [Int.tdiv_eq_ediv h (by omega), Int.tmod_eq_emod h (by omega), ceilDiv_three]
  split <;> omega

theorem wrap64_id (x : Int) (h0 : 0 ≤ x) (h1 : x < 2 ^ 63) : wrap64 x = x := by
  unfold wrap64
  omega

/-! ## Chain model (chain.go) -/

/-- `CidMaxLen` from chain.go. -/
def CidMaxLen : Nat := 38

/-- `ChainMaxLen` from chain.go. -/
def ChainMaxLen : Nat := 128

/-- `TipsetKeyMaxLen` from chain.go (`20 * CidMaxLen`). -/
def TipsetKeyMaxLen : Nat := 20 * CidMaxLen

/-- A CID is modelled by its byte representation; `cid.Undef` is the empty
byte string (`Defined()` is false exactly for it, `ByteLen` is its length). -/
abbrev Cid := Bytes

/-- `TipSet` from chain.go.  The `Commitments` field is a 32-byte array in
Go; it is a byte list here.  A `*TipSet` that is nil in Go does not arise
in this embedding (the nil check in `TipSet.Validate` is unreachable for
the in-range values modelled). -/
structure TipSet where
  epoch : Int
  key : Bytes
  powerTable : Cid
  commitments : Bytes
deriving DecidableEq, Repr

/-- `TipSet.Validate` from chain.go, with the unreachable nil check
dropped.  Errors are the Go error strings. -/
def tsValidate (ts : TipSet) : Except String Unit :=
  if ts.key.length = 0 then .error "tipset key must not be empty"
  else if ts.key.length > TipsetKeyMaxLen then .error "tipset key too long"
  else if ts.powerTable.length = 0 then .error "power table CID must not be empty"
  else if ts.powerTable.length > CidMaxLen then .error "power table CID too long"
  else .ok ()

/-- `ECChain` from chain.go: a list of tipsets; the empty list is the
distinguished bottom value. -/
abbrev ECChain := List TipSet

/-- A chain key: the byte string produced by `ECChain.Key()`. -/
abbrev ChainKey := Bytes

/-- `ECChain.IsZero`. -/
def chainIsZero (c : ECChain) : Bool := c.isEmpty

/-- `ECChain.Base` (`none` for the zero chain). -/
def chainBase (c : ECChain) : Option TipSet := c.head?

/-- `ECChain.Suffix`: everything after the base (empty for zero or base). -/
def chainSuffix (c : ECChain) : List TipSet := c.tail

/-- `ECChain.Len` (the methods file calls `c.Len()`; it is the length). -/
def chainLen (c : ECChain) : Nat := c.length

/-- `ECChain.BaseChain`: same base, no suffix; zero chain for zero input. -/
def chainBaseChain (c : ECChain) : ECChain :=
  match c with
  | [] => []
  | t :: _ => [t]

/-- `ECChain.Prefix(to)` from chain.go: the chain truncated to length
`min (to+1) (len c)`; zero chain for zero input. -/
def chainPrefixN (c : ECChain) (upTo : Nat) : ECChain :=
  if c.isEmpty then [] else c.take (min (upTo + 1) c.length)

/-- `ECChain.HasBase(t)`: non-zero and the base equals `t`. -/
def chainHasBase (c : ECChain) (t : TipSet) : Bool :=
  match c with
  | [] => false
  | b :: _ => b = t

/-- The per-tipset fragment of `ECChain.Key()`:
`epoch(8B BE) ‖ commitments ‖ len(key)(4B BE) ‖ key ‖ powerTable`. -/
def tsKeyFragment (ts : TipSet) : Bytes :=
  natToBE 8 (int64Bits ts.epoch) ++ ts.commitments ++
    natToBE 4 (ts.key.length % 2 ^ 32) ++ ts.key ++ ts.powerTable

/-- `ECChain.Key()` from chain.go: concatenation of the per-tipset
fragments. -/
def chainKey (c : ECChain) : ChainKey := (c.map tsKeyFragment).flatten

/-- `ECChain.Validate` from chain.go: bottom is valid; otherwise the
length bound, per-tipset validity, and the strictly-increasing epoch check
seeded with `lastEpoch = -1`. -/
def chainValidateLoop : List TipSet → Int → Except String Unit
  | [], _ => .ok ()
  | ts :: rest, lastEpoch =>
    match tsValidate ts with
    | .error e => .error e
    | .ok () =>
      if ts.epoch ≤ lastEpoch then .error "chain must have increasing epochs"
      else chainValidateLoop rest ts.epoch

def chainValidate (c : ECChain) : Except String Unit :=
  if chainIsZero c then .ok ()
  else if c.length > ChainMaxLen then .error "chain too long"
  else chainValidateLoop c (-1)

/-! ## Power table (modelled from the spec) -/

/-- ActorID (uint64). -/
abbrev ActorID := Nat

/-- Association-list lookup (first match): the model of a Go map read. -/
def alookup {α β : Type} [DecidableEq α] : List (α × β) → α → Option β
  | [], _ => none
  | (k, v) :: rest, k' => if k = k' then some v else alookup rest k'

/-- Association-list write: replaces the first binding for the key in
place, appends a fresh binding at the end — the model of a Go map write. -/
def aset {α β : Type} [DecidableEq α] : List (α × β) → α → β → List (α × β)
  | [], k, v => [(k, v)]
  | (k0, v0) :: rest, k, v =>
    if k0 = k then (k, v) :: rest else (k0, v0) :: aset rest k v

/-- Modelled from the spec: `PowerTable` is not under src/ (only used by
gpbft.go).  Per the spec it is an ordered list of entries (descending by
power, ties broken by ascending ActorID) with precomputed per-index scaled
powers, the scaled total, and an id → index lookup.  Public keys and raw
powers are omitted; `entries` keeps only the actor ids in table order. -/
structure PowerTable where
  entries : List ActorID
  scaledPower : List Int
  scaledTotal : Int
  lookup : List (ActorID × Nat)
deriving DecidableEq, Repr

/-- Modelled from the spec: `PowerTable.Get` returns the sender's scaled
power via the lookup, zero for an unknown actor. -/
def ptGet (pt : PowerTable) (id : ActorID) : Int :=
  match alookup pt.lookup id with
  | some idx => pt.scaledPower.getD idx 0
  | none => 0

/-! ## Message data model (modelled from the spec where not under src/) -/

/-- The GPBFT phases. -/
inductive Phase
  | initialPhase
  | qualityPhase
  | convergePhase
  | preparePhase
  | commitPhase
  | decidePhase
  | terminatedPhase
deriving DecidableEq, Repr

/-- Modelled from the spec: `SupplementalData` (power-table CID and
commitments root); equality is field-wise. -/
structure SupplementalData where
  commitments : Bytes
  powerTable : Cid
deriving DecidableEq, Repr

/-- Modelled from the spec: `Payload` — `(instance_id, round, phase,
supplemental_data, value)`. -/
structure Payload where
  instanceID : Nat
  round : Nat
  phase : Phase
  supplementalData : SupplementalData
  value : ECChain
deriving DecidableEq, Repr

/-- Modelled from the spec: `Justification` — a vote, a set of
power-table indices (the bitfield is modelled as the list of set
indices), and the aggregate signature. -/
structure Justification where
  vote : Payload
  signers : List Nat
  signature : Bytes
deriving DecidableEq, Repr

/-- Modelled from the spec: `GMessage`. -/
structure GMessage where
  sender : ActorID
  vote : Payload
  signature : Bytes
  ticket : Bytes
  justification : Option Justification
deriving DecidableEq, Repr

/-- `isSpammable` from gpbft.go: nil justification and round beyond zero. -/
def isSpammable (msg : GMessage) : Bool :=
  msg.justification.isNone && decide (msg.vote.round > 0)

/-- Modelled from the spec (§7): the error taxonomy of the instance; the
Go error values are not under src/.  The first three are the
`ValidationError` kind. -/
inductive GError
  | wrongInstance
  | wrongSupplement
  | wrongBase
  | receivedAfterTermination
  | convergeForBottom
  | convergeNilJustification
  | noValuesAtConverge
  | unexpectedMessagePhase
  | unexpectedCurrentPhase
deriving DecidableEq, Repr

/-- Modelled from the spec (§7): which errors are `ValidationError`s
(dropped, with the batch continuing, in `ReceiveMany`). -/
def isValidationError : GError → Bool
  | .wrongInstance => true
  | .wrongSupplement => true
  | .wrongBase => true
  | _ => false

/-! ## Quorum accumulator (gpbft.go `quorumState`) -/

/-- `chainSupport` from gpbft.go.  A signature stored as `none` is a Go
nil signature (as recorded for QUALITY prefixes). -/
structure ChainSupport where
  chain : ECChain
  power : Int
  signatures : List (ActorID × Option Bytes)
  hasStrongQuorum : Bool
deriving DecidableEq, Repr

/-- `quorumState` from gpbft.go (metrics attributes dropped). -/
structure QuorumState where
  senders : List ActorID
  sendersTotalPower : Int
  chainSupport : List (ChainKey × ChainSupport)
  powerTable : PowerTable
  receivedJustification : List (ChainKey × Justification)
deriving DecidableEq, Repr

/-- `newQuorumState`. -/
def newQuorumState (pt : PowerTable) : QuorumState :=
  { senders := [], sendersTotalPower := 0, chainSupport := [],
    powerTable := pt, receivedJustification := [] }

/-- `quorumState.receiveSender`: records the sender and adds its power the
first time; reports the power and whether this was the first time. -/
def qsReceiveSender (q : QuorumState) (sender : ActorID) : (Int × Bool) × QuorumState :=
  if sender ∈ q.senders then ((0, false), q)
  else
    let senderPower := ptGet q.powerTable sender
    ((senderPower, true),
      { q with senders := q.senders ++ [sender],
               sendersTotalPower := q.sendersTotalPower + senderPower })

/-- `quorumState.receiveInner`.  The Go panic on a duplicate non-nil
signature is a fatal outcome. -/
def qsReceiveInner (q : QuorumState) (sender : ActorID) (value : ECChain)
    (power : Int) (signature : Option Bytes) : Except String QuorumState :=
  let key := chainKey value
  let cand0 :=
    match alookup q.chainSupport key with
    | some cs => cs
    | none => { chain := value, power := 0, signatures := [], hasStrongQuorum := false }
  let cand1 := { cand0 with power := cand0.power + power }
  match alookup cand1.signatures sender with
  | some (some _) => .error "duplicate message should have been dropped"
  | _ =>
    let cand2 := { cand1 with
      signatures := aset cand1.signatures sender signature,
      hasStrongQuorum := IsStrongQuorum cand1.power q.powerTable.scaledTotal }
    .ok { q with chainSupport := aset q.chainSupport key cand2 }

/-- `quorumState.Receive`. -/
def qsReceive (q : QuorumState) (sender : ActorID) (value : ECChain)
    (signature : Option Bytes) : Except String QuorumState :=
  match qsReceiveSender q sender with
  | ((_, false), q1) => .ok q1
  | ((senderPower, true), q1) => qsReceiveInner q1 sender value senderPower signature

/-- The loop body of `quorumState.ReceiveEachPrefix`: for each `j` in the
list, record `values.Prefix(j+1)` with a nil signature. -/
def qsPrefixLoop (sender : ActorID) (values : ECChain) (senderPower : Int) :
    List Nat → QuorumState → Except String QuorumState
  | [], q => .ok q
  | j :: rest, q =>
    match qsReceiveInner q sender (chainPrefixN values (j + 1)) senderPower none with
    | .error e => .error e
    | .ok q1 => qsPrefixLoop sender values senderPower rest q1

/-- `quorumState.ReceiveEachPrefix` (recording each prefix of the chain
as a distinct value, signatures not stored). -/
def qsReceiveAllPrefixes (q : QuorumState) (sender : ActorID) (values : ECChain) :
    Except String QuorumState :=
  match qsReceiveSender q sender with
  | ((_, false), q1) => .ok q1
  | ((senderPower, true), q1) =>
    qsPrefixLoop sender values senderPower (List.range (chainSuffix values).length) q1

/-- `quorumState.ReceiveJustification` (panics on nil; keeps the first
justification received for a key). -/
def qsReceiveJustification (q : QuorumState) (value : ECChain)
    (justification : Option Justification) : Except String QuorumState :=
  match justification with
  | none => .error "nil justification"
  | some j =>
    let key := chainKey value
    match alookup q.receivedJustification key with
    | some _ => .ok q
    | none => .ok { q with receivedJustification := aset q.receivedJustification key j }

/-- `quorumState.ListAllValues` (iteration in insertion order). -/
def qsListAllValues (q : QuorumState) : List ECChain :=
  q.chainSupport.map (fun p => p.2.chain)

/-- `quorumState.ReceivedFromStrongQuorum`. -/
def qsReceivedFromStrongQuorum (q : QuorumState) : Bool :=
  IsStrongQuorum q.sendersTotalPower q.powerTable.scaledTotal

/-- `quorumState.ReceivedFromWeakQuorum`. -/
def qsReceivedFromWeakQuorum (q : QuorumState) : Bool :=
  hasWeakQuorum q.sendersTotalPower q.powerTable.scaledTotal

/-- `quorumState.HasStrongQuorumFor`. -/
def qsHasStrongQuorumFor (q : QuorumState) (key : ChainKey) : Bool :=
  match alookup q.chainSupport key with
  | some cs => cs.hasStrongQuorum
  | none => false

/-- `quorumState.GetJustificationOf`: a zero key asks for any stored
justification of bottom at the phase; otherwise the stored justification
for the key, filtered by phase. -/
def qsGetJustificationOf (q : QuorumState) (phase : Phase) (key : ChainKey) :
    Option Justification :=
  if key.isEmpty then
    (q.receivedJustification.find?
      (fun p => chainIsZero p.2.vote.value && decide (p.2.vote.phase = phase))).map
      (fun p => p.2)
  else
    match alookup q.receivedJustification key with
    | some j => if j.vote.phase = phase then some j else none
    | none => none

/-- `quorumState.HasJustificationOf`. -/
def qsHasJustificationOf (q : QuorumState) (phase : Phase) (key : ChainKey) : Bool :=
  (qsGetJustificationOf q phase key).isSome

/-- `quorumState.CouldReachStrongQuorumFor`.  `ScaledTotal / 3` in Go is
truncated division. -/
def qsCouldReachStrongQuorumFor (q : QuorumState) (key : ChainKey)
    (withAdversary : Bool) : Bool :=
  let supportingPower : Int :=
    match alookup q.chainSupport key with
    | some cs => cs.power
    | none => 0
  let unvotedPower := q.powerTable.scaledTotal - q.sendersTotalPower
  let adversaryPower : Int :=
    if withAdversary then q.powerTable.scaledTotal.tdiv 3 else 0
  let possibleSupport :=
    min (supportingPower + unvotedPower + adversaryPower) q.powerTable.scaledTotal
  IsStrongQuorum possibleSupport q.powerTable.scaledTotal

/-- `QuorumResult` from gpbft.go: power-table indices in increasing order
with the matching signatures. -/
structure QuorumResult where
  signers : List Nat
  signatures : List (Option Bytes)
deriving DecidableEq, Repr

/-- The index-building pass of `FindStrongQuorumFor`: each recorded
signer id is mapped through the power-table lookup (Go panics when an id
is missing). -/
def fsqIndices (lk : List (ActorID × Nat)) :
    List (ActorID × Option Bytes) → Except String (List Nat)
  | [] => .ok []
  | (id, _) :: rest =>
    match alookup lk id with
    | none => .error "signer not found in power table"
    | some idx =>
      match fsqIndices lk rest with
      | .error e => .error e
      | .ok l => .ok (idx :: l)

/-- The accumulation loop of `FindStrongQuorumFor`: walk the ascending
signer indices, accumulating power and signatures, and stop at the first
prefix that is a strong quorum.  Exhausting the list is the Go panic
"strong quorum exists but could not be found". -/
def fsqLoop (pt : PowerTable) (sigs : List (ActorID × Option Bytes)) :
    List Nat → List Nat → List (Option Bytes) → Int → Except String (Option QuorumResult)
  | [], _, _, _ => .error "strong quorum exists but could not be found"
  | idx :: rest, taken, takenSigs, justificationPower =>
    if idx ≥ pt.entries.length then .error "invalid signer index"
    else
      let power := pt.scaledPower.getD idx 0
      let entryID := pt.entries.getD idx 0
      let jp := justificationPower + power
      let sig := (alookup sigs entryID).getD none
      if IsStrongQuorum jp pt.scaledTotal then
        .ok (some { signers := taken ++ [idx], signatures := takenSigs ++ [sig] })
      else fsqLoop pt sigs rest (taken ++ [idx]) (takenSigs ++ [sig]) jp

/-- `quorumState.FindStrongQuorumFor` from gpbft.go.  `sort.Ints` is
modelled by an ascending insertion sort. -/
def qsFindStrongQuorumFor (q : QuorumState) (key : ChainKey) :
    Except String (Option QuorumResult) :=
  match alookup q.chainSupport key with
  | none => .ok none
  | some cs =>
    if !cs.hasStrongQuorum then .ok none
    else
      match fsqIndices q.powerTable.lookup cs.signatures with
      | .error e => .error e
      | .ok idxs =>
        let signers := List.insertionSort (· ≤ ·) idxs
        fsqLoop q.powerTable cs.signatures signers [] [] 0

/-- The descending scan of `FindStrongQuorumValueForLongestPrefixOf`. -/
def qsFSQLongestLoop (q : QuorumState) (preferred : ECChain) : Nat → ECChain
  | 0 =>
    if qsHasStrongQuorumFor q (chainKey (chainPrefixN preferred 0)) then
      chainPrefixN preferred 0
    else chainBaseChain preferred
  | i + 1 =>
    if qsHasStrongQuorumFor q (chainKey (chainPrefixN preferred (i + 1))) then
      chainPrefixN preferred (i + 1)
    else qsFSQLongestLoop q preferred i

/-- `quorumState.FindStrongQuorumValueForLongestPrefixOf`. -/
def qsFindStrongQuorumValueForLongestPrefixOf (q : QuorumState) (preferred : ECChain) :
    ECChain :=
  if qsHasStrongQuorumFor q (chainKey preferred) then preferred
  else
    match preferred.length with
    | 0 => chainBaseChain preferred
    | n + 1 => qsFSQLongestLoop q preferred n

/-- The scan of `FindStrongQuorumValue` (Go panics when two chains have a
strong quorum). -/
def fsqvLoop : List (ChainKey × ChainSupport) → Option ECChain → Except String (Option ECChain)
  | [], acc => .ok acc
  | (_, cp) :: rest, acc =>
    if cp.hasStrongQuorum then
      match acc with
      | some _ => .error "multiple chains with strong quorum"
      | none => fsqvLoop rest (some cp.chain)
    else fsqvLoop rest acc

/-- `quorumState.FindStrongQuorumValue`. -/
def qsFindStrongQuorumValue (q : QuorumState) : Except String (Option ECChain) :=
  fsqvLoop q.chainSupport none

/-! ## Converge state (gpbft.go `convergeState`) -/

/-- The CONVERGE rank.  In Go this is a `float64` with `+Inf` marking the
participant's own pre-seeded value; the hash-derived finite ranks are
abstracted to integers (their values never matter to the claims below,
only their order). -/
inductive Rank
  | fin (r : Int)
  | inf
deriving DecidableEq, Repr

/-- Strict comparison of ranks (Go `<` on float64, with `+Inf`). -/
def rankLT : Rank → Rank → Bool
  | .fin a, .fin b => a < b
  | .fin _, .inf => true
  | .inf, _ => false

/-- `ConvergeValue` from gpbft.go. -/
structure ConvergeValue where
  chain : ECChain
  justification : Option Justification
  rank : Rank
deriving DecidableEq, Repr

/-- The zero `ConvergeValue` (Go zero value; `Rank` zero is `0.0`). -/
def zeroConvergeValue : ConvergeValue :=
  { chain := [], justification := none, rank := .fin 0 }

/-- `ConvergeValue.IsValid`. -/
def cvIsValid (cv : ConvergeValue) : Bool :=
  !(chainIsZero cv.chain) && cv.justification.isSome

/-- `ConvergeValue.IsOtherBetter`. -/
def cvIsOtherBetter (cv other : ConvergeValue) : Bool :=
  !(cvIsValid cv) || rankLT other.rank cv.rank

/-- `convergeState` from gpbft.go (metrics attributes dropped). -/
structure ConvergeState where
  senders : List ActorID
  values : List (ChainKey × ConvergeValue)
  sendersTotalPower : Int
deriving DecidableEq, Repr

/-- `newConvergeState`. -/
def newConvergeState : ConvergeState :=
  { senders := [], values := [], sendersTotalPower := 0 }

/-- `convergeState.SetSelfValue`: pre-seed the participant's own proposal
with rank `+Inf`; keep an existing entry. -/
def csSetSelfValue (c : ConvergeState) (value : ECChain)
    (justification : Option Justification) : ConvergeState :=
  let key := chainKey value
  match alookup c.values key with
  | some _ => c
  | none =>
    { c with values := aset c.values key ⟨value, justification, Rank.inf⟩ }

/-- `convergeState.Receive` from gpbft.go.  `ctr` is the hash-derived
`ComputeTicketRank` (not under src/; abstracted, see `Rank`). -/
def csReceive (ctr : Bytes → Int → Rank) (c : ConvergeState) (table : PowerTable)
    (sender : ActorID) (value : ECChain) (ticket : Bytes)
    (justification : Option Justification) : ConvergeState × Option GError :=
  if chainIsZero value then (c, some .convergeForBottom)
  else
    match justification with
    | none => (c, some .convergeNilJustification)
    | some j =>
      if sender ∈ c.senders then (c, none)
      else
        let senderPower := ptGet table sender
        let c1 := { c with senders := c.senders ++ [sender],
                           sendersTotalPower := c.sendersTotalPower + senderPower }
        let key := chainKey value
        match alookup c1.values key with
        | none =>
          ({ c1 with
              values := aset c1.values key ⟨value, some j, ctr ticket senderPower⟩ },
            none)
        | some v =>
          let rank := ctr ticket senderPower
          if rankLT rank v.rank then
            ({ c1 with values := aset c1.values key { v with rank := rank } }, none)
          else (c1, none)

/-- `convergeState.FindBestTicketProposal` (map iteration in insertion
order; `none` filter accepts everything). -/
def csFindBestTicketProposal (c : ConvergeState)
    (filter : Option (ConvergeValue → Bool)) : ConvergeValue :=
  c.values.foldl
    (fun best p =>
      if cvIsOtherBetter best p.2 &&
          (match filter with | none => true | some f => f p.2) then p.2 else best)
    zeroConvergeValue

/-- `convergeState.GetJustificationOf`.  Entries whose justification is
nil (never produced by the code paths embedded here) do not match. -/
def csGetJustificationOf (c : ConvergeState) (phase : Phase) (key : ChainKey) :
    Option Justification :=
  if key.isEmpty then
    (c.values.find?
      (fun p =>
        match p.2.justification with
        | some j => chainIsZero j.vote.value && decide (j.vote.phase = phase)
        | none => false)).bind (fun p => p.2.justification)
  else
    match alookup c.values key with
    | some v =>
      match v.justification with
      | some j => if j.vote.phase = phase then some j else none
      | none => none
    | none => none

/-- `convergeState.HasJustificationOf`. -/
def csHasJustificationOf (c : ConvergeState) (phase : Phase) (key : ChainKey) : Bool :=
  (csGetJustificationOf c phase key).isSome

/-! ## Instance state machine (gpbft.go `instance`)

The participant configuration is not under src/; it is modelled from the
spec (§6 configuration knobs).  Timeout durations are computed in Go with
`float64` `math.Pow`; they are abstracted to configuration-supplied
integer durations (`delay`, `delayQuality`), which only ever feed the
`atOrAfter` comparisons.  The host clock is an integer instant passed to
each entrypoint (the Go code reads `host.Time()` during a handler, during
which the virtual clock does not advance).  Broadcasts, alarms, progress
notifications, metrics and tracing are external effects with no bearing
on the instance state and are dropped. -/

/-- Modelled from the spec: the participant configuration visible to the
instance, plus the externally supplied ticket-rank and signature
aggregation functions. -/
structure Config where
  maxLookaheadRounds : Nat
  rebroadcastImmediatelyAfterRound : Nat
  rebroadcastAfter : Nat → Int
  delay : Nat → Int
  delayQuality : Nat → Int
  computeTicketRank : Bytes → Int → Rank
  aggregate : List Nat → List (Option Bytes) → Bytes

/-- `roundState` from gpbft.go. -/
structure RoundState where
  converged : ConvergeState
  prepared : QuorumState
  committed : QuorumState
deriving DecidableEq, Repr

/-- `newRoundState`. -/
def newRoundState (pt : PowerTable) : RoundState :=
  { converged := newConvergeState, prepared := newQuorumState pt,
    committed := newQuorumState pt }

/-- `instance` from gpbft.go.  `rebroadcastTimeout` is `none` for the Go
zero `time.Time`. -/
structure Instance where
  instanceID : Nat
  input : ECChain
  powerTable : PowerTable
  beacon : Bytes
  round : Nat
  phase : Phase
  phaseTimeout : Int
  rebroadcastTimeout : Option Int
  rebroadcastAttempts : Nat
  supplementalData : SupplementalData
  proposal : ECChain
  value : ECChain
  candidates : List ChainKey
  terminationValue : Option Justification
  quality : QuorumState
  rounds : List (Nat × RoundState)
  decision : QuorumState
deriving DecidableEq, Repr

/-- The outcome of an instance operation: success, a returned Go error,
or a Go panic (which aborts the process; the state at the point of the
panic is carried for the embedding's sake). -/
inductive Res
  | ok
  | err (e : GError)
  | fatal (s : String)
deriving DecidableEq, Repr

/-- `newInstance` from gpbft.go (fails on an empty input). -/
def newInstance (instanceID : Nat) (input : ECChain) (data : SupplementalData)
    (pt : PowerTable) (beacon : Bytes) : Option Instance :=
  if chainIsZero input then none
  else
    some
      { instanceID := instanceID, input := input, powerTable := pt,
        beacon := beacon, round := 0, phase := .initialPhase,
        phaseTimeout := 0, rebroadcastTimeout := none,
        rebroadcastAttempts := 0, supplementalData := data,
        proposal := input, value := [],
        candidates := [chainKey (chainBaseChain input)],
        terminationValue := none, quality := newQuorumState pt,
        rounds := [(0, newRoundState pt)], decision := newQuorumState pt }

/-- `instance.getRound`: fetch the round state, creating it lazily. -/
def getRound (i : Instance) (r : Nat) : RoundState × Instance :=
  match alookup i.rounds r with
  | some rs => (rs, i)
  | none =>
    let rs := newRoundState i.powerTable
    (rs, { i with rounds := aset i.rounds r rs })

/-- Write a round state back (the Go code mutates through the pointer
returned by `getRound`). -/
def setRound (i : Instance) (r : Nat) (rs : RoundState) : Instance :=
  { i with rounds := aset i.rounds r rs }

/-- `instance.isCandidate`. -/
def isCandidate (i : Instance) (c : ECChain) : Bool :=
  chainKey c ∈ i.candidates

/-- `instance.addCandidate`. -/
def addCandidate (i : Instance) (c : ECChain) : Instance × Bool :=
  let key := chainKey c
  if key ∈ i.candidates then (i, false)
  else ({ i with candidates := i.candidates ++ [key] }, true)

/-- The loop of `instance.addCandidatePrefixes`: try `Prefix(l)` for
`l = Len-1, ..., 1`, stopping as soon as one was added. -/
def addCandidatePrefixesLoop (i : Instance) (c : ECChain) : Nat → Instance × Bool
  | 0 => (i, false)
  | l + 1 =>
    let r := addCandidate i (chainPrefixN c (l + 1))
    if r.2 then (r.1, true) else addCandidatePrefixesLoop r.1 c l

/-- `instance.addCandidatePrefixes`. -/
def addCandidatePrefixes (i : Instance) (c : ECChain) : Instance × Bool :=
  addCandidatePrefixesLoop i c (chainLen c - 1)

/-- `instance.resetRebroadcastParams`. -/
def resetRebroadcastParams (i : Instance) : Instance :=
  { i with rebroadcastAttempts := 0, rebroadcastTimeout := none }

/-- `instance.phaseTimeoutElapsed` (`atOrAfter(now, phaseTimeout)`). -/
def phaseTimeoutElapsed (i : Instance) (now : Int) : Bool :=
  now ≥ i.phaseTimeout

/-- `instance.rebroadcastTimeoutElapsed`; the Go zero time is in the
distant past, so it counts as elapsed. -/
def rebroadcastTimeoutElapsed (i : Instance) (now : Int) : Bool :=
  match i.rebroadcastTimeout with
  | none => true
  | some t => now ≥ t

/-- `instance.shouldRebroadcast`. -/
def shouldRebroadcast (cfg : Config) (i : Instance) (now : Int) : Bool :=
  phaseTimeoutElapsed i now || decide (i.round > cfg.rebroadcastImmediatelyAfterRound)

/-- `instance.tryRebroadcast`.  The `rebroadcast()` call and all
`SetAlarm` calls are external; only the timeout/attempt bookkeeping is
state. -/
def tryRebroadcast (cfg : Config) (now : Int) (i : Instance) : Instance :=
  if i.rebroadcastAttempts = 0 && i.rebroadcastTimeout.isNone then
    let offset : Int :=
      if i.phase = Phase.decidePhase ||
          decide (i.round > cfg.rebroadcastImmediatelyAfterRound) then now
      else i.phaseTimeout
    let rt := offset + cfg.rebroadcastAfter 0
    let i1 := { i with rebroadcastTimeout := some rt }
    if phaseTimeoutElapsed i1 now then i1
    else if rt < i1.phaseTimeout then i1
    else resetRebroadcastParams i1
  else if rebroadcastTimeoutElapsed i now then
    let attempts := i.rebroadcastAttempts + 1
    { i with rebroadcastAttempts := attempts,
             rebroadcastTimeout := some (now + cfg.rebroadcastAfter attempts) }
  else i

/-- `instance.buildJustification` (the aggregate signature comes from the
host's aggregator, a total function here, so the Go panic on aggregation
failure does not arise). -/
def buildJustification (cfg : Config) (i : Instance) (quorum : QuorumResult)
    (round : Nat) (phase : Phase) (value : ECChain) : Justification :=
  { vote :=
      { instanceID := i.instanceID, round := round, phase := phase,
        supplementalData := i.supplementalData, value := value },
    signers := quorum.signers,
    signature := cfg.aggregate quorum.signers quorum.signatures }

/-- `instance.terminate`. -/
def terminate (i : Instance) (decision : Justification) : Instance :=
  resetRebroadcastParams
    { i with phase := .terminatedPhase, value := decision.vote.value,
             terminationValue := some decision }

/-- `instance.beginQuality` (broadcast is external). -/
def beginQuality (cfg : Config) (now : Int) (i : Instance) : Instance × Res :=
  if i.phase ≠ Phase.initialPhase then (i, .err .unexpectedCurrentPhase)
  else
    (resetRebroadcastParams
      { i with phase := .qualityPhase,
               phaseTimeout := now + cfg.delayQuality i.round }, .ok)

/-- `instance.beginPrepare` (the justification only feeds the external
broadcast). -/
def beginPrepare (cfg : Config) (now : Int) (i : Instance)
    (_justification : Option Justification) : Instance × Res :=
  (resetRebroadcastParams
    { i with phase := .preparePhase,
             phaseTimeout := now + cfg.delay i.round }, .ok)

/-- `instance.beginCommit`: after the phase switch, for a non-bottom
value a justification must be found (strong PREPARE quorum this round, a
stored PREPARE justification at this round's COMMIT, or at the next
round's PREPARE/CONVERGE); otherwise the Go code panics. -/
def beginCommit (cfg : Config) (now : Int) (i : Instance) : Instance × Res :=
  let i1 :=
    resetRebroadcastParams
      { i with phase := .commitPhase, phaseTimeout := now + cfg.delay i.round }
  if chainIsZero i1.value then (i1, .ok)
  else
    let valueKey := chainKey i1.value
    let r1 := getRound i1 i1.round
    let currentRound := r1.1
    let r2 := getRound r1.2 (r1.2.round + 1)
    let nextRound := r2.1
    let i2 := r2.2
    match qsFindStrongQuorumFor currentRound.prepared valueKey with
    | .error e => (i2, .fatal e)
    | .ok (some _) => (i2, .ok)
    | .ok none =>
      match qsGetJustificationOf currentRound.committed .preparePhase valueKey with
      | some _ => (i2, .ok)
      | none =>
        match qsGetJustificationOf nextRound.prepared .preparePhase valueKey with
        | some _ => (i2, .ok)
        | none =>
          match csGetJustificationOf nextRound.converged .preparePhase valueKey with
          | some _ => (i2, .ok)
          | none => (i2, .fatal "beginCommit with no strong quorum for non-bottom value")

/-- `instance.beginDecide` (no phase timeout; the justification feeds the
external broadcast). -/
def beginDecide (_cfg : Config) (i : Instance) (round : Nat) : Instance × Res :=
  let i1 := resetRebroadcastParams { i with phase := .decidePhase }
  let r1 := getRound i1 round
  let i2 := r1.2
  match qsFindStrongQuorumFor r1.1.committed (chainKey i2.value) with
  | .error e => (i2, .fatal e)
  | .ok (some _) => (i2, .ok)
  | .ok none => (i2, .fatal "beginDecide with no strong quorum for value")

/-- `instance.skipToDecide`. -/
def skipToDecide (i : Instance) (value : ECChain)
    (_justification : Option Justification) : Instance :=
  resetRebroadcastParams
    { i with phase := .decidePhase, proposal := value, value := value }

/-- `instance.beginConverge`: asserts the justification belongs to the
previous round, then pre-seeds the round's converge state with the
participant's own proposal. -/
def beginConverge (cfg : Config) (now : Int) (i : Instance)
    (justification : Justification) : Instance × Res :=
  if justification.vote.round ≠ i.round - 1 then
    (i, .fatal "justification for which to begin converge does not belong to expected round")
  else
    let i1 :=
      resetRebroadcastParams
        { i with phase := .convergePhase, phaseTimeout := now + cfg.delay i.round }
    let r1 := getRound i1 i1.round
    let rs := r1.1
    let i2 := r1.2
    let rs1 := { rs with
      converged := csSetSelfValue rs.converged i2.proposal (some justification) }
    (setRound i2 i2.round rs1, .ok)

/-- `instance.beginNextRound`: advance the round and derive the CONVERGE
justification (strong COMMIT-for-bottom quorum in the previous round, a
stored COMMIT-for-bottom justification at this round's PREPARE/CONVERGE,
or a justification received under the proposal's key). -/
def beginNextRound (cfg : Config) (now : Int) (i : Instance) : Instance × Res :=
  let i1 := { i with round := i.round + 1 }
  let r1 := getRound i1 i1.round
  let currentRound := r1.1
  let r2 := getRound r1.2 (r1.2.round - 1)
  let previousRound := r2.1
  let i2 := r2.2
  let bottomKey := chainKey []
  match qsFindStrongQuorumFor previousRound.committed bottomKey with
  | .error e => (i2, .fatal e)
  | .ok (some quorum) =>
    beginConverge cfg now i2
      (buildJustification cfg i2 quorum (i2.round - 1) .commitPhase [])
  | .ok none =>
    match qsGetJustificationOf currentRound.prepared .commitPhase bottomKey with
    | some j => beginConverge cfg now i2 j
    | none =>
      match csGetJustificationOf currentRound.converged .commitPhase bottomKey with
      | some j => beginConverge cfg now i2 j
      | none =>
        match alookup previousRound.committed.receivedJustification (chainKey i2.proposal) with
        | some j => beginConverge cfg now i2 j
        | none => (i2, .fatal "beginConverge called but no justification for proposal")

/-- `instance.skipToRound`. -/
def skipToRound (cfg : Config) (now : Int) (i : Instance) (round : Nat)
    (chain : ECChain) (justification : Justification) : Instance × Res :=
  let i1 := { i with round := round }
  if justification.vote.phase = Phase.preparePhase then
    let a := addCandidate i1 chain
    beginConverge cfg now { a.1 with proposal := chain } justification
  else beginConverge cfg now i1 justification

/-- `instance.tryQuality`. -/
def tryQuality (cfg : Config) (now : Int) (i : Instance) : Instance × Res :=
  if i.phase ≠ Phase.qualityPhase then (i, .err .unexpectedCurrentPhase)
  else
    let foundQuorum := qsHasStrongQuorumFor i.quality (chainKey i.proposal)
    let timeoutExpired := phaseTimeoutElapsed i now
    if foundQuorum || timeoutExpired then
      let i1 := { i with
        proposal := qsFindStrongQuorumValueForLongestPrefixOf i.quality i.input }
      let a := addCandidatePrefixes i1 i1.proposal
      let i2 := { a.1 with value := a.1.proposal }
      beginPrepare cfg now i2 none
    else (i, .ok)

/-- `instance.updateCandidatesFromQuality`. -/
def updateCandidatesFromQuality (i : Instance) : Instance × Res :=
  let longest := qsFindStrongQuorumValueForLongestPrefixOf i.quality i.input
  ((addCandidatePrefixes i longest).1, .ok)

/-- The CONVERGE filter of `instance.tryConverge` (values in the
candidate set, or PREPARE-justified values that could have been decided
elsewhere given an equivocating adversary). -/
def convergeFilter (i : Instance) (commitState : QuorumState) (cv : ConvergeValue) : Bool :=
  if isCandidate i cv.chain then true
  else
    match cv.justification with
    | some j =>
      if j.vote.phase ≠ Phase.preparePhase then false
      else qsCouldReachStrongQuorumFor commitState (chainKey cv.chain) true
    | none => false

/-- `instance.tryConverge`. -/
def tryConverge (cfg : Config) (now : Int) (i : Instance) : Instance × Res :=
  if i.phase ≠ Phase.convergePhase then (i, .err .unexpectedCurrentPhase)
  else if !(phaseTimeoutElapsed i now) then
    if shouldRebroadcast cfg i now then (tryRebroadcast cfg now i, .ok) else (i, .ok)
  else
    let r1 := getRound i (i.round - 1)
    let commitState := r1.1.committed
    let i1 := r1.2
    let r2 := getRound i1 i1.round
    let i2 := r2.2
    let winner := csFindBestTicketProposal r2.1.converged (some (convergeFilter i2 commitState))
    if !(cvIsValid winner) then (i2, .err .noValuesAtConverge)
    else
      let i3 :=
        if !(isCandidate i2 winner.chain) then (addCandidate i2 winner.chain).1 else i2
      let i4 := { i3 with proposal := winner.chain, value := winner.chain }
      beginPrepare cfg now i4 winner.justification

/-- `instance.tryPrepare`. -/
def tryPrepare (cfg : Config) (now : Int) (i : Instance) : Instance × Res :=
  if i.phase ≠ Phase.preparePhase then (i, .err .unexpectedCurrentPhase)
  else
    let r1 := getRound i i.round
    let currentRound := r1.1
    let prepared := currentRound.prepared
    let i1 := r1.2
    let proposalKey := chainKey i1.proposal
    let foundQuorum := qsHasStrongQuorumFor prepared proposalKey
    let quorumNotPossible := !(qsCouldReachStrongQuorumFor prepared proposalKey false)
    let phaseComplete := phaseTimeoutElapsed i1 now && qsReceivedFromStrongQuorum prepared
    let r2 := getRound i1 (i1.round + 1)
    let nextRound := r2.1
    let i2 := r2.2
    let foundJustification :=
      qsHasJustificationOf currentRound.committed .preparePhase proposalKey ||
      qsHasJustificationOf nextRound.prepared .preparePhase proposalKey ||
      csHasJustificationOf nextRound.converged .preparePhase proposalKey
    let i3 :=
      if foundQuorum || foundJustification then { i2 with value := i2.proposal }
      else if quorumNotPossible || phaseComplete then { i2 with value := [] }
      else i2
    if foundQuorum || foundJustification || quorumNotPossible || phaseComplete then
      beginCommit cfg now i3
    else if shouldRebroadcast cfg i3 now then (tryRebroadcast cfg now i3, .ok)
    else (i3, .ok)

/-- The sway step inside `instance.tryCommit`'s `phaseComplete` case:
adopt the first non-bottom committed value. -/
def commitSway (i : Instance) (committed : QuorumState) : Instance :=
  match (qsListAllValues committed).find? (fun v => !(chainIsZero v)) with
  | none => i
  | some v =>
    let i1 := if !(isCandidate i v) then (addCandidate i v).1 else i
    if !(decide (v = i1.proposal)) then { i1 with proposal := v } else i1

/-- `instance.tryCommit` (for a given round; the COMMIT accumulator stays
open across rounds). -/
def tryCommit (cfg : Config) (now : Int) (i : Instance) (round : Nat) : Instance × Res :=
  let r1 := getRound i round
  let committed := r1.1.committed
  let i1 := r1.2
  match qsFindStrongQuorumValue committed with
  | .error e => (i1, .fatal e)
  | .ok quorumOpt =>
    let foundStrongQuorum := quorumOpt.isSome
    let quorumValue := quorumOpt.getD []
    let phaseComplete := phaseTimeoutElapsed i1 now && qsReceivedFromStrongQuorum committed
    let r2 := getRound i1 (round + 1)
    let nextRound := r2.1
    let i2 := r2.2
    let bottomKey := chainKey []
    let foundJustificationForBottom :=
      qsHasJustificationOf nextRound.prepared .commitPhase bottomKey ||
      csHasJustificationOf nextRound.converged .commitPhase bottomKey
    if foundStrongQuorum && !(chainIsZero quorumValue) then
      beginDecide cfg { i2 with value := quorumValue } round
    else if i2.round ≠ round || i2.phase ≠ Phase.commitPhase then (i2, .ok)
    else if foundStrongQuorum || foundJustificationForBottom then
      beginNextRound cfg now i2
    else if phaseComplete then
      beginNextRound cfg now (commitSway i2 committed)
    else if shouldRebroadcast cfg i2 now then (tryRebroadcast cfg now i2, .ok)
    else (i2, .ok)

/-- `instance.tryDecide`. -/
def tryDecide (cfg : Config) (now : Int) (i : Instance) : Instance × Res :=
  match qsFindStrongQuorumValue i.decision with
  | .error e => (i, .fatal e)
  | .ok (some quorumValue) =>
    match qsFindStrongQuorumFor i.decision (chainKey quorumValue) with
    | .error e => (i, .fatal e)
    | .ok (some quorum) =>
      (terminate i (buildJustification cfg i quorum 0 .decidePhase quorumValue), .ok)
    | .ok none => (i, .fatal "tryDecide with no strong quorum for value")
  | .ok none => (tryRebroadcast cfg now i, .ok)

/-- `instance.tryCurrentPhase`. -/
def tryCurrentPhase (cfg : Config) (now : Int) (i : Instance) : Instance × Res :=
  match i.phase with
  | .qualityPhase => tryQuality cfg now i
  | .convergePhase => tryConverge cfg now i
  | .preparePhase => tryPrepare cfg now i
  | .commitPhase => tryCommit cfg now i i.round
  | .decidePhase => tryDecide cfg now i
  | .terminatedPhase => (i, .ok)
  | .initialPhase => (i, .err .unexpectedCurrentPhase)

/-- `instance.shouldSkipToRound`. -/
def shouldSkipToRound (i : Instance) (round : Nat) :
    Option (ECChain × Justification) × Instance :=
  let r1 := getRound i round
  let state := r1.1
  let i1 := r1.2
  if round ≤ i1.round || i1.phase = Phase.decidePhase then (none, i1)
  else if !(qsReceivedFromWeakQuorum state.prepared) then (none, i1)
  else
    let proposal := csFindBestTicketProposal state.converged none
    if !(cvIsValid proposal) then (none, i1)
    else
      match proposal.justification with
      | some j => (some (proposal.chain, j), i1)
      | none => (none, i1)

/-- The loop of `instance.postReceive`: scan the received rounds (already
reversed to descending order) and skip to the first eligible one. -/
def postReceiveLoop (cfg : Config) (now : Int) : List Nat → Instance → Instance × Res
  | [], i => (i, .ok)
  | r :: rest, i =>
    match shouldSkipToRound i r with
    | (some cj, i1) => skipToRound cfg now i1 r cj.1 cj.2
    | (none, i1) => postReceiveLoop cfg now rest i1

/-- `instance.postReceive`. -/
def postReceive (cfg : Config) (now : Int) (i : Instance) (roundsReceived : List Nat) :
    Instance × Res :=
  postReceiveLoop cfg now roundsReceived.reverse i

/-- `instance.receiveOne`: validation, phase dispatch, and the trailing
`tryCurrentPhase`.  The middle component reports whether the message may
have changed state. -/
def receiveOne (cfg : Config) (now : Int) (i : Instance) (msg : GMessage) :
    Instance × Bool × Res :=
  if msg.vote.instanceID ≠ i.instanceID then (i, false, .err .wrongInstance)
  else if msg.vote.supplementalData ≠ i.supplementalData then
    (i, false, .err .wrongSupplement)
  else if !(chainIsZero msg.vote.value ||
      (match chainBase i.input with
       | some b => chainHasBase msg.vote.value b
       | none => false)) then
    (i, false, .err .wrongBase)
  else if i.phase = Phase.terminatedPhase then (i, false, .ok)
  else
    let forPriorRound := msg.vote.round < i.round
    if (forPriorRound && msg.vote.phase = Phase.convergePhase) ||
        (forPriorRound && msg.vote.phase = Phase.preparePhase) then
      (i, false, .ok)
    else if decide (msg.vote.round > i.round + cfg.maxLookaheadRounds) && isSpammable msg then
      (i, false, .ok)
    else
      let r1 := getRound i msg.vote.round
      let msgRound := r1.1
      let i1 := r1.2
      match msg.vote.phase with
      | .qualityPhase =>
        match qsReceiveAllPrefixes i1.quality msg.sender msg.vote.value with
        | .error e => (i1, false, .fatal e)
        | .ok quality1 =>
          let i2 := { i1 with quality := quality1 }
          if i2.phase ≠ Phase.qualityPhase then
            let u := updateCandidatesFromQuality i2
            (u.1, true, u.2)
          else
            let t := tryCurrentPhase cfg now i2
            (t.1, true, t.2)
      | .convergePhase =>
        let recv := csReceive cfg.computeTicketRank msgRound.converged i1.powerTable
          msg.sender msg.vote.value msg.ticket msg.justification
        let i2 := setRound i1 msg.vote.round ({ msgRound with converged := recv.1 })
        match recv.2 with
        | some e => (i2, false, .err e)
        | none =>
          let t := tryCurrentPhase cfg now i2
          (t.1, true, t.2)
      | .preparePhase =>
        match qsReceive msgRound.prepared msg.sender msg.vote.value (some msg.signature) with
        | .error e => (i1, false, .fatal e)
        | .ok prepared1 =>
          let withJust : Except String QuorumState :=
            match msg.justification with
            | some _ => qsReceiveJustification prepared1 msg.vote.value msg.justification
            | none => .ok prepared1
          match withJust with
          | .error e =>
            (setRound i1 msg.vote.round ({ msgRound with prepared := prepared1 }), false, .fatal e)
          | .ok prepared2 =>
            let i2 := setRound i1 msg.vote.round ({ msgRound with prepared := prepared2 })
            let t := tryCurrentPhase cfg now i2
            (t.1, true, t.2)
      | .commitPhase =>
        match qsReceive msgRound.committed msg.sender msg.vote.value (some msg.signature) with
        | .error e => (i1, false, .fatal e)
        | .ok committed1 =>
          let withJust : Except String QuorumState :=
            if !(chainIsZero msg.vote.value) then
              qsReceiveJustification committed1 msg.vote.value msg.justification
            else .ok committed1
          match withJust with
          | .error e =>
            (setRound i1 msg.vote.round ({ msgRound with committed := committed1 }), false, .fatal e)
          | .ok committed2 =>
            let i2 := setRound i1 msg.vote.round ({ msgRound with committed := committed2 })
            if i2.phase ≠ Phase.decidePhase then
              match tryCommit cfg now i2 msg.vote.round with
              | (i3, Res.ok) =>
                if i3.phase = Phase.preparePhase && i3.round = msg.vote.round &&
                    !(chainIsZero msg.vote.value) then
                  let t := tryCurrentPhase cfg now i3
                  (t.1, true, t.2)
                else (i3, true, .ok)
              | (i3, r) => (i3, true, r)
            else
              let t := tryCurrentPhase cfg now i2
              (t.1, true, t.2)
      | .decidePhase =>
        match qsReceive i1.decision msg.sender msg.vote.value (some msg.signature) with
        | .error e => (i1, false, .fatal e)
        | .ok decision1 =>
          let i2 := { i1 with decision := decision1 }
          let i3 :=
            if i2.phase ≠ Phase.decidePhase then
              skipToDecide i2 msg.vote.value msg.justification
            else i2
          let t := tryCurrentPhase cfg now i3
          (t.1, true, t.2)
      | .initialPhase => (i1, false, .err .unexpectedMessagePhase)
      | .terminatedPhase => (i1, false, .err .unexpectedMessagePhase)

/-- `instance.Receive`. -/
def instReceive (cfg : Config) (i : Instance) (now : Int) (msg : GMessage) :
    Instance × Res :=
  if i.phase = Phase.terminatedPhase then (i, .err .receivedAfterTermination)
  else
    match receiveOne cfg now i msg with
    | (i1, _, Res.err e) => (i1, .err e)
    | (i1, _, Res.fatal s) => (i1, .fatal s)
    | (i1, stateChanged, Res.ok) =>
      if stateChanged then postReceive cfg now i1 [msg.vote.round]
      else (i1, .ok)

/-- The per-message loop of `instance.ReceiveMany`: late-binding
validation errors are dropped and the batch continues; other errors stop
the batch.  Rounds of state-changing messages are collected. -/
def receiveManyLoop (cfg : Config) (now : Int) :
    List GMessage → Instance → List Nat → Instance × List Nat × Res
  | [], i, rounds => (i, rounds, .ok)
  | msg :: rest, i, rounds =>
    match receiveOne cfg now i msg with
    | (i1, sc, Res.ok) =>
      receiveManyLoop cfg now rest i1 (if sc then rounds ++ [msg.vote.round] else rounds)
    | (i1, sc, Res.err e) =>
      if isValidationError e then
        receiveManyLoop cfg now rest i1 (if sc then rounds ++ [msg.vote.round] else rounds)
      else (i1, rounds, .err e)
    | (i1, _, Res.fatal s) => (i1, rounds, .fatal s)

/-- `instance.ReceiveMany` (the distinct received rounds are processed in
ascending order by `postReceive`, which reverses them). -/
def instReceiveMany (cfg : Config) (i : Instance) (now : Int) (msgs : List GMessage) :
    Instance × Res :=
  if i.phase = Phase.terminatedPhase then (i, .err .receivedAfterTermination)
  else
    match receiveManyLoop cfg now msgs i [] with
    | (i1, rounds, Res.ok) =>
      postReceive cfg now i1 (List.insertionSort (· ≤ ·) rounds.dedup)
    | (i1, _, r) => (i1, r)

/-- `instance.ReceiveAlarm`. -/
def instReceiveAlarm (cfg : Config) (i : Instance) (now : Int) : Instance × Res :=
  tryCurrentPhase cfg now i

/-- `instance.Start`. -/
def instStart (cfg : Config) (i : Instance) (now : Int) : Instance × Res :=
  beginQuality cfg now i

/-! ## Message codec (internal/encoding/encoding.go)

The CBOR (un)marshalling of message types is cbor-gen generated code not
under src/, and the Zstandard compressor/decompressor is an external
library; both are abstract parameters here (`marshal`, `unmarshal`,
`compress`, `decompress`), with their documented contracts appearing as
hypotheses of the round-trip theorem.  A Go `MarshalCBOR` result is a
byte string together with an optional error. -/

/-- `maxDecompressedSize` from encoding.go (1 MiB). -/
def maxDecompressedSize : Nat := 2 ^ 20

/-- `CBOR.Encode`. -/
def cborEncode {M : Type} (marshal : M → Bytes × Option String) (m : M) :
    Except String Bytes :=
  match marshal m with
  | (bs, none) => .ok bs
  | (_, some e) => .error e

/-- `CBOR.Decode`. -/
def cborDecode {M : Type} (unmarshal : Bytes → Except String M) (v : Bytes) :
    Except String M :=
  unmarshal v

/-- `ZSTD.Encode`: CBOR-encode, reject anything beyond the maximum
decompressed size (this check precedes the error check in Go), then
compress. -/
def zstdEncode {M : Type} (marshal : M → Bytes × Option String)
    (compress : Bytes → Bytes) (m : M) : Except String Bytes :=
  let r := marshal m
  if r.1.length > maxDecompressedSize then
    .error "encoded value cannot exceed maximum size"
  else
    match r.2 with
    | some e => .error e
    | none => .ok (compress r.1)

/-- `ZSTD.Decode`: decompress (the decoder is configured with the 1 MiB
cap), then CBOR-decode. -/
def zstdDecode {M : Type} (unmarshal : Bytes → Except String M)
    (decompress : Bytes → Except String Bytes) (v : Bytes) : Except String M :=
  match decompress v with
  | .error e => .error e
  | .ok cborEncoded => cborDecode unmarshal cborEncoded

/-! ## C1 — quorum arithmetic -/

/-- C1 (counterexample): quantified over all int64 values the claim is
false.  At `p = 1, n = -1` the code's `hasWeakQuorum` returns false (Go's
truncated `divCeil(-1, 3)` is `1`), while `1 > ⌈-1/3⌉ = 0` holds. -/
theorem c1_counterexample :
    ¬ (hasWeakQuorum 1 (-1) = true ↔ (1 : Int) > ceilDiv (-1) 3) := by
  decide

theorem isStrongQuorum_iff (p n : Int) (h0 : 0 ≤ n) (h1 : n < 2 ^ 62) :
    IsStrongQuorum p n = true ↔ p ≥ ceilDiv (2 * n) 3 := by
  have hw : wrap64 (2 * n) = 2 * n := wrap64_id _ (by omega) (by omega)
  have hd : divCeil (2 * n) 3 = ceilDiv (2 * n) 3 := divCeil_three_of_nonneg _ (by omega)
  simp [IsStrongQuorum, hw, hd]

theorem hasWeakQuorum_iff (p n : Int) (h0 : 0 ≤ n) :
    hasWeakQuorum p n = true ↔ p > ceilDiv n 3 := by
  have hd2 : divCeil n 3 = ceilDiv n 3 := divCeil_three_of_nonneg _ h0
  simp [hasWeakQuorum, hd2]

/-- C1 (amended): for all int64 `p` and all `n` with `0 ≤ n < 2^62` (so
that `2*n` does not overflow int64), `IsStrongQuorum(p, n)` iff
`p ≥ ⌈2n/3⌉` and `hasWeakQuorum(p, n)` iff `p > ⌈n/3⌉`, with `⌈⌉` the
integer ceiling. -/
theorem c1_quorum_arithmetic (p n : Int) (h0 : 0 ≤ n) (h1 : n < 2 ^ 62) :
    (IsStrongQuorum p n = true ↔ p ≥ ceilDiv (2 * n) 3) ∧
      (hasWeakQuorum p n = true ↔ p > ceilDiv n 3) :=
  ⟨isStrongQuorum_iff p n h0 h1, hasWeakQuorum_iff p n h0⟩

theorem c1_quorum_arithmetic_witness :
    (0 : Int) ≤ 3 ∧ (3 : Int) < 2 ^ 62 ∧
      ((IsStrongQuorum 2 3 = true ↔ (2 : Int) ≥ ceilDiv (2 * 3) 3) ∧
        (hasWeakQuorum 2 3 = true ↔ (2 : Int) > ceilDiv 3 3)) :=
  ⟨by decide, by decide, c1_quorum_arithmetic 2 3 (by decide) (by decide)⟩

/-! ## C7 — chain validation -/

theorem chain_lt_iff (l : List Int) (a : Int) :
    List.Chain (· < ·) a l ↔ (List.Chain' (· < ·) l ∧ ∀ e ∈ l, a < e) := by
  induction l generalizing a with
  | nil => simp
  | cons e l' ih =>
    rw [List.chain_cons]
    constructor
    · rintro ⟨hae, hc⟩
      have h' := (ih e).mp hc
      refine ⟨hc, ?_⟩
      intro x hx
      rcases List.mem_cons.mp hx with rfl | hx
      · exact hae
      · exact lt_trans hae (h'.2 x hx)
    · rintro ⟨hc', hall⟩
      exact ⟨hall e (List.mem_cons_self e l'), hc'⟩

theorem chainValidateLoop_ok (l : List TipSet) (last : Int) :
    chainValidateLoop l last = .ok () ↔
      ((∀ ts ∈ l, tsValidate ts = .ok ()) ∧
        List.Chain (· < ·) last (l.map TipSet.epoch)) := by
  induction l generalizing last with
  | nil => simp [chainValidateLoop]
  | cons ts rest ih =>
    cases h : tsValidate ts with
    | error e => simp [chainValidateLoop, h]
    | ok u =>
      cases u
      by_cases hle : ts.epoch ≤ last
      · simp only [chainValidateLoop, h, if_pos hle, List.map_cons, List.chain_cons]
        simp only [List.forall_mem_cons, h]
        constructor
        · intro hfalse
          exact absurd hfalse (by simp)
        · rintro ⟨-, h2, -⟩
          omega
      · have hlt : last < ts.epoch := by omega
        simp [chainValidateLoop, h, hle, List.chain_cons, ih, hlt]

instance : DecidableEq (Except String Unit) := fun a b =>
  match a, b with
  | .ok (), .ok () => isTrue rfl
  | .error x, .error y =>
    match decEq x y with
    | isTrue h => isTrue (by rw [h])
    | isFalse h => isFalse (fun hh => by cases hh; exact h rfl)
  | .ok (), .error _ => isFalse (fun hh => by cases hh)
  | .error _, .ok () => isFalse (fun hh => by cases hh)

/-- C7 (counterexample): a single-tipset chain whose tipset key is empty
has length ≤ 128 and strictly increasing epochs, yet `ECChain.Validate`
rejects it (per-tipset validation fails), refuting the claimed
characterisation. -/
theorem c7_counterexample :
    ¬ (chainValidate [⟨0, [], [7], List.replicate 32 0⟩] = .ok () ↔
        ((([⟨0, [], [7], List.replicate 32 0⟩] : ECChain)).length ≤ ChainMaxLen ∧
          List.Chain' (· < ·)
            ((([⟨0, [], [7], List.replicate 32 0⟩] : ECChain)).map TipSet.epoch))) := by
  intro h
  exact absurd (h.mpr ⟨by decide, by simp⟩) (by decide)

/-- C7 (amended): `ECChain.Validate` succeeds on the bottom chain, and on
any chain succeeds iff the length is at most 128, every tipset passes
`TipSet.Validate` (non-empty key of at most 760 bytes, defined power
table CID of at most 38 bytes), the epochs are strictly increasing, and
all epochs are non-negative.  (For the bottom chain the right-hand side
is vacuous, so the single equivalence covers it.) -/
theorem c7_validate_characterisation (c : ECChain) :
    chainValidate c = .ok () ↔
      (c.length ≤ ChainMaxLen ∧ (∀ ts ∈ c, tsValidate ts = .ok ()) ∧
        List.Chain' (· < ·) (c.map TipSet.epoch) ∧ ∀ ts ∈ c, 0 ≤ ts.epoch) := by
  by_cases hz : c = []
  · subst hz
    simp [chainValidate, chainIsZero, ChainMaxLen]
  · have hz' : chainIsZero c = false := by
      cases c with
      | nil => exact absurd rfl hz
      | cons x xs => rfl
    by_cases hlen : c.length > ChainMaxLen
    · simp [chainValidate, hz', hlen]
    · simp [chainValidate, hz', hlen, chainValidateLoop_ok, chain_lt_iff]
      constructor
      · rintro ⟨h1, h2, h3⟩
        exact ⟨by omega, h1, h2, fun ts hts => by have := h3 ts hts; omega⟩
      · rintro ⟨h0, h1, h2, h3⟩
        exact ⟨h1, h2, fun ts hts => by have := h3 ts hts; omega⟩

/-! ## C4 — CouldReachStrongQuorumFor -/

/-- The claim's `support(k)`: the recorded power for the key, zero when
absent. -/
def qsSupport (q : QuorumState) (k : ChainKey) : Int :=
  match alookup q.chainSupport k with
  | some cs => cs.power
  | none => 0

/-- C4: `CouldReachStrongQuorumFor(k, w)` is true iff
`min(support(k) + (scaled_total − senders_total_power) + (scaled_total/3
if w), scaled_total)` reaches the strong-quorum bound `⌈2·scaled_total/3⌉`
(the range hypotheses keep `2·scaled_total` inside int64, where the
arithmetic is exact). -/
theorem c4_could_reach_strong_quorum (q : QuorumState) (k : ChainKey) (w : Bool)
    (h0 : 0 ≤ q.powerTable.scaledTotal) (h1 : q.powerTable.scaledTotal < 2 ^ 62) :
    qsCouldReachStrongQuorumFor q k w = true ↔
      min (qsSupport q k + (q.powerTable.scaledTotal - q.sendersTotalPower) +
            (if w then q.powerTable.scaledTotal / 3 else 0))
          q.powerTable.scaledTotal ≥
        ceilDiv (2 * q.powerTable.scaledTotal) 3 := by
  have ht : q.powerTable.scaledTotal.tdiv 3 = q.powerTable.scaledTotal / 3 :=
    Int.tdiv_eq_ediv h0 (by omega)
  simp only [qsCouldReachStrongQuorumFor, qsSupport, ht,
    isStrongQuorum_iff _ _ h0 h1]

/-- A small concrete power table used by several witnesses below:
two actors with scaled powers 6 and 4 (total 10), table order and lookup
consistent. -/
def wPT : PowerTable :=
  { entries := [1, 2], scaledPower := [6, 4], scaledTotal := 10,
    lookup := [(1, 0), (2, 1)] }

/-- The empty quorum state over `wPT`. -/
def wQS : QuorumState := newQuorumState wPT

theorem c4_could_reach_strong_quorum_witness :
    (0 : Int) ≤ wQS.powerTable.scaledTotal ∧ wQS.powerTable.scaledTotal < 2 ^ 62 ∧
      (qsCouldReachStrongQuorumFor wQS [] false = true ↔
        min (qsSupport wQS [] + (wQS.powerTable.scaledTotal - wQS.sendersTotalPower) +
              (if false then wQS.powerTable.scaledTotal / 3 else 0))
            wQS.powerTable.scaledTotal ≥
          ceilDiv (2 * wQS.powerTable.scaledTotal) 3) :=
  ⟨by decide, by decide,
    c4_could_reach_strong_quorum wQS [] false (by decide) (by decide)⟩

/-! ## C10 — convergeState.Receive error handling -/

/-- C10: `convergeState.Receive` rejects a bottom chain value and a nil
justification, leaving the state unchanged in both cases, and silently
ignores (returns no error for) a sender already recorded, again leaving
the state unchanged. -/
theorem c10_converge_receive (ctr : Bytes → Int → Rank) (c : ConvergeState)
    (pt : PowerTable) (s : ActorID) (v : ECChain) (t : Bytes)
    (j : Option Justification) :
    (chainIsZero v = true →
      csReceive ctr c pt s v t j = (c, some GError.convergeForBottom)) ∧
    (chainIsZero v = false → j = none →
      csReceive ctr c pt s v t j = (c, some GError.convergeNilJustification)) ∧
    (chainIsZero v = false → j.isSome = true → s ∈ c.senders →
      csReceive ctr c pt s v t j = (c, none)) := by
  refine ⟨?_, ?_, ?_⟩
  · intro hz
    simp [csReceive, hz]
  · intro hz hj
    subst hj
    simp [csReceive, hz]
  · intro hz hj hs
    cases j with
    | none => simp at hj
    | some jj => simp [csReceive, hz, hs]

/-- A single-tipset chain used by concrete witnesses. -/
def t0 : TipSet := ⟨0, [1], [7], List.replicate 32 0⟩

/-- A second tipset (epoch 1) used by concrete witnesses. -/
def t1 : TipSet := ⟨1, [2], [7], List.replicate 32 0⟩

/-- A third tipset (epoch 2) used by concrete witnesses. -/
def t2 : TipSet := ⟨2, [3], [7], List.replicate 32 0⟩

/-- A converge state that has already heard from sender 1. -/
def wCS1 : ConvergeState :=
  { senders := [1], values := [], sendersTotalPower := 6 }

/-- A justification value for witnesses (content irrelevant). -/
def wJust : Justification :=
  { vote :=
      { instanceID := 0, round := 0, phase := .preparePhase,
        supplementalData := { commitments := [], powerTable := [7] },
        value := [t0] },
    signers := [0], signature := [] }

theorem c10_converge_receive_witness :
    csReceive (fun _ _ => Rank.fin 0) wCS1 wPT 1 [] [] none =
      (wCS1, some GError.convergeForBottom) ∧
    csReceive (fun _ _ => Rank.fin 0) wCS1 wPT 1 [t0] [] none =
      (wCS1, some GError.convergeNilJustification) ∧
    csReceive (fun _ _ => Rank.fin 0) wCS1 wPT 1 [t0] [] (some wJust) =
      (wCS1, none) :=
  ⟨(c10_converge_receive (fun _ _ => Rank.fin 0) wCS1 wPT 1 [] [] none).1 (by decide),
    (c10_converge_receive (fun _ _ => Rank.fin 0) wCS1 wPT 1 [t0] [] none).2.1
      (by decide) rfl,
    (c10_converge_receive (fun _ _ => Rank.fin 0) wCS1 wPT 1 [t0] [] (some wJust)).2.2
      (by decide) (by decide) (by decide)⟩

/-! ## C3 — ReceiveEachPrefix -/

theorem alookup_aset_self {α β : Type} [DecidableEq α] (l : List (α × β)) (k : α) (v : β) :
    alookup (aset l k v) k = some v := by
  induction l with
  | nil => simp [aset, alookup]
  | cons p rest ih =>
    obtain ⟨k0, v0⟩ := p
    by_cases h : k0 = k
    · subst h
      simp [aset, alookup]
    · simp [aset, alookup, h, ih]

theorem alookup_aset_ne {α β : Type} [DecidableEq α] (l : List (α × β)) (k k' : α) (v : β)
    (h : k' ≠ k) : alookup (aset l k v) k' = alookup l k' := by
  have h' : k ≠ k' := Ne.symm h
  induction l with
  | nil => simp [aset, alookup, h']
  | cons p rest ih =>
    obtain ⟨k0, v0⟩ := p
    by_cases hk : k0 = k
    · subst hk
      simp [aset, alookup, h']
    · simp [aset, alookup, hk, ih]

theorem natToBE_length (k n : Nat) : (natToBE k n).length = k := by
  induction k generalizing n with
  | zero => simp [natToBE]
  | succ k ih => simp [natToBE, ih]

theorem tsKeyFragment_length (ts : TipSet) :
    (tsKeyFragment ts).length =
      8 + ts.commitments.length + 4 + ts.key.length + ts.powerTable.length := by
  simp [tsKeyFragment, natToBE_length]
  omega

theorem chainKey_append (l1 l2 : ECChain) :
    chainKey (l1 ++ l2) = chainKey l1 ++ chainKey l2 := by
  simp [chainKey]

theorem chainKey_length_pos (ts : TipSet) (l : ECChain) :
    0 < (chainKey (ts :: l)).length := by
  have h : chainKey (ts :: l) = tsKeyFragment ts ++ chainKey l := by
    simp [chainKey]
  rw [h]
  have := tsKeyFragment_length ts
  simp only [List.length_append]
  omega

theorem chainKey_take_ne (c : ECChain) (a b : Nat) (hab : a < b) (hb : b ≤ c.length) :
    chainKey (c.take a) ≠ chainKey (c.take b) := by
  intro h
  have hlen : (chainKey (c.take a)).length = (chainKey (c.take b)).length := by rw [h]
  have h1 : (c.take b).take a = c.take a := by
    rw [List.take_take]
    congr 1
    omega
  have h2 : c.take b = c.take a ++ (c.take b).drop a := by
    conv_lhs => rw [← List.take_append_drop a (c.take b)]
    rw [h1]
  have hdlen : ((c.take b).drop a).length = b - a := by
    simp [List.length_drop, List.length_take]
    omega
  have hpos : 0 < (chainKey ((c.take b).drop a)).length := by
    cases hdd : (c.take b).drop a with
    | nil => rw [hdd] at hdlen; simp at hdlen; omega
    | cons x xs => exact chainKey_length_pos x xs
  rw [h2, chainKey_append] at hlen
  simp only [List.length_append] at hlen
  omega

/-- The effect of a single recorded support in `receiveInner`: the
sender's power is added to the entry (created fresh if absent) and the
given signature is stored — for QUALITY prefixes, the nil signature. -/
def qsBump (q : QuorumState) (value : ECChain) (sender : ActorID) (pw : Int) : ChainSupport :=
  match alookup q.chainSupport (chainKey value) with
  | none =>
    { chain := value, power := pw, signatures := [(sender, none)],
      hasStrongQuorum := IsStrongQuorum pw q.powerTable.scaledTotal }
  | some cs =>
    { cs with power := cs.power + pw,
              signatures := aset cs.signatures sender none,
              hasStrongQuorum := IsStrongQuorum (cs.power + pw) q.powerTable.scaledTotal }


/-- The quorum state after one recorded support: the updated entry is
written back under the value's key. -/
def qsBumped (q : QuorumState) (value : ECChain) (sender : ActorID) (pw : Int) : QuorumState :=
  { q with chainSupport := aset q.chainSupport (chainKey value) (qsBump q value sender pw) }

theorem qsBump_congr (q q' : QuorumState) (value : ECChain) (sender : ActorID) (pw : Int)
    (h1 : alookup q'.chainSupport (chainKey value) = alookup q.chainSupport (chainKey value))
    (h2 : q'.powerTable = q.powerTable) :
    qsBump q' value sender pw = qsBump q value sender pw := by
  unfold qsBump
  rw [h1, h2]

theorem qsReceiveInner_eq (q : QuorumState) (s : ActorID) (v : ECChain) (pw : Int)
    (hsig : ∀ cs b, alookup q.chainSupport (chainKey v) = some cs →
      alookup cs.signatures s ≠ some (some b)) :
    qsReceiveInner q s v pw none = .ok (qsBumped q v s pw) := by
  unfold qsReceiveInner qsBumped qsBump
  cases hcs : alookup q.chainSupport (chainKey v) with
  | none => simp [hcs, aset, alookup]
  | some cs =>
    simp only [hcs]
    cases hl : alookup cs.signatures s with
    | none => simp [hl]
    | some ob =>
      cases ob with
      | none => simp [hl]
      | some b => exact absurd hl (hsig cs b hcs)

theorem qsPrefixLoop_spec (sender : ActorID) (c : ECChain) (pw : Int) (js : List Nat)
    (q : QuorumState)
    (hnd : List.Pairwise
      (fun j j' => chainKey (chainPrefixN c (j + 1)) ≠ chainKey (chainPrefixN c (j' + 1))) js)
    (hsig : ∀ j ∈ js, ∀ cs b,
      alookup q.chainSupport (chainKey (chainPrefixN c (j + 1))) = some cs →
      alookup cs.signatures sender ≠ some (some b)) :
    ∃ q', qsPrefixLoop sender c pw js q = .ok q' ∧
      q'.senders = q.senders ∧
      q'.sendersTotalPower = q.sendersTotalPower ∧
      q'.powerTable = q.powerTable ∧
      q'.receivedJustification = q.receivedJustification ∧
      (∀ k, (∀ j ∈ js, k ≠ chainKey (chainPrefixN c (j + 1))) →
        alookup q'.chainSupport k = alookup q.chainSupport k) ∧
      (∀ j ∈ js, alookup q'.chainSupport (chainKey (chainPrefixN c (j + 1))) =
        some (qsBump q (chainPrefixN c (j + 1)) sender pw)) := by
  induction js generalizing q with
  | nil =>
    exact ⟨q, rfl, rfl, rfl, rfl, rfl, fun k _ => rfl, by simp⟩
  | cons j rest ih =>
    have hstep := qsReceiveInner_eq q sender (chainPrefixN c (j + 1)) pw
      (fun cs b h => hsig j (by simp) cs b h)
    obtain ⟨hjrest, hndrest⟩ := List.pairwise_cons.mp hnd
    have hloop : qsPrefixLoop sender c pw (j :: rest) q =
        qsPrefixLoop sender c pw rest (qsBumped q (chainPrefixN c (j + 1)) sender pw) := by
      simp [qsPrefixLoop, hstep]
    have hcs1 : ∀ j' ∈ rest,
        alookup (qsBumped q (chainPrefixN c (j + 1)) sender pw).chainSupport
            (chainKey (chainPrefixN c (j' + 1))) =
          alookup q.chainSupport (chainKey (chainPrefixN c (j' + 1))) := by
      intro j' hj'
      exact alookup_aset_ne _ _ _ _ (Ne.symm (hjrest j' hj'))
    have hsig1 : ∀ j' ∈ rest, ∀ cs b,
        alookup (qsBumped q (chainPrefixN c (j + 1)) sender pw).chainSupport
          (chainKey (chainPrefixN c (j' + 1))) = some cs →
        alookup cs.signatures sender ≠ some (some b) := by
      intro j' hj' cs b hcs
      rw [hcs1 j' hj'] at hcs
      exact hsig j' (by simp [hj']) cs b hcs
    obtain ⟨q', hrun, hs, hp, hpt, hjx, hother, hhit⟩ :=
      ih (qsBumped q (chainPrefixN c (j + 1)) sender pw) hndrest hsig1
    refine ⟨q', by rw [hloop]; exact hrun, hs, hp, hpt, hjx, ?_, ?_⟩
    · intro k hk
      have hk1 : ∀ j' ∈ rest, k ≠ chainKey (chainPrefixN c (j' + 1)) :=
        fun j' hj' => hk j' (by simp [hj'])
      rw [hother k hk1]
      exact alookup_aset_ne _ _ _ _ (hk j (by simp))
    · intro j0 hj0
      rcases List.mem_cons.mp hj0 with rfl | hj0
      · rw [hother _ hjrest]
        exact alookup_aset_self _ _ _
      · rw [hhit j0 hj0]
        congr 1
        exact qsBump_congr _ _ _ _ _ (hcs1 j0 hj0) rfl

theorem isEmpty_false_of_ne {c : ECChain} (h : c ≠ []) : c.isEmpty = false := by
  cases c with
  | nil => exact absurd rfl h
  | cons x xs => rfl

theorem chainPrefixN_eq_take (c : ECChain) (hc : c ≠ []) (m : Nat) (h : m + 1 ≤ c.length) :
    chainPrefixN c m = c.take (m + 1) := by
  have h1 : min (m + 1) c.length = m + 1 := by omega
  simp [chainPrefixN, isEmpty_false_of_ne hc, h1]

theorem chainPrefixN_base_take (x : TipSet) (xs : List TipSet) (m : Nat)
    (h : m ≤ xs.length) :
    chainPrefixN (x :: xs) m =
      chainBaseChain (x :: xs) ++ (chainSuffix (x :: xs)).take m := by
  have h1 : chainPrefixN (x :: xs) m = (x :: xs).take (m + 1) :=
    chainPrefixN_eq_take _ (by simp) m (by simp; omega)
  rw [h1]
  simp [chainBaseChain, chainSuffix]

theorem prefixKeys_pairwise (c : ECChain) :
    List.Pairwise
      (fun j j' => chainKey (chainPrefixN c (j + 1)) ≠ chainKey (chainPrefixN c (j' + 1)))
      (List.range (chainSuffix c).length) := by
  cases c with
  | nil => simp [chainSuffix]
  | cons x xs =>
    have hp := List.pairwise_lt_range xs.length
    refine hp.imp_of_mem ?_
    intro a b ha hb hab
    have hbn : b < xs.length := List.mem_range.mp hb
    rw [chainPrefixN_eq_take _ (by simp) _ (by simp; omega),
      chainPrefixN_eq_take _ (by simp) _ (by simp; omega)]
    exact chainKey_take_ne _ (a + 2) (b + 2) (by omega) (by simp; omega)

/-- C3 (counterexample): starting from an empty quorum state, a fresh
sender and the chain `[t0, t1]` (suffix `[t1]`).  The claim predicts
support recorded exactly for the base followed by the strict prefixes of
the suffix — that is, for `[t0]` only.  The code instead records support
for `[t0, t1]` (the base followed by the full, non-strict suffix) and
none for `[t0]`. -/
theorem c3_counterexample :
    (Except.toOption (qsReceiveAllPrefixes wQS 1 [t0, t1])).map
        (fun q' => ((alookup q'.chainSupport (chainKey [t0])).isSome,
          (alookup q'.chainSupport (chainKey [t0, t1])).isSome)) =
      some (false, true) := by
  decide

/-- C3 (amended): `ReceiveEachPrefix(sender, c)` from a sender not
previously recorded records support from that sender exactly for the
base followed by each non-empty prefix of `c`'s suffix (the full suffix
included, the empty prefix excluded), each with a nil signature and the
sender's power added; every other chain-support entry is unchanged, and
justifications are untouched.  A sender already recorded causes no change
at all.  (The hypothesis says the sender has no non-nil signature already
stored anywhere, which holds in reachable states and rules out the Go
panic.) -/
theorem c3_receive_all_prefixes (q : QuorumState) (sender : ActorID) (c : ECChain)
    (hsig : ∀ k cs b, alookup q.chainSupport k = some cs →
      alookup cs.signatures sender ≠ some (some b)) :
    (sender ∈ q.senders → qsReceiveAllPrefixes q sender c = .ok q) ∧
    (sender ∉ q.senders →
      ∃ q', qsReceiveAllPrefixes q sender c = .ok q' ∧
        q'.senders = q.senders ++ [sender] ∧
        q'.sendersTotalPower = q.sendersTotalPower + ptGet q.powerTable sender ∧
        q'.receivedJustification = q.receivedJustification ∧
        (∀ k, (∀ j, 1 ≤ j → j ≤ (chainSuffix c).length →
            k ≠ chainKey (chainBaseChain c ++ (chainSuffix c).take j)) →
          alookup q'.chainSupport k = alookup q.chainSupport k) ∧
        (∀ j, 1 ≤ j → j ≤ (chainSuffix c).length →
          alookup q'.chainSupport (chainKey (chainBaseChain c ++ (chainSuffix c).take j)) =
            some (qsBump q (chainBaseChain c ++ (chainSuffix c).take j) sender
              (ptGet q.powerTable sender)))) := by
  constructor
  · intro hs
    simp [qsReceiveAllPrefixes, qsReceiveSender, hs]
  · intro hs
    have hsig1 : ∀ j ∈ List.range (chainSuffix c).length, ∀ cs b,
        alookup q.chainSupport (chainKey (chainPrefixN c (j + 1))) = some cs →
        alookup cs.signatures sender ≠ some (some b) :=
      fun j _ cs b hcs => hsig _ cs b hcs
    obtain ⟨q', hrun, hsend, hpow, hpt, hjx, hother, hhit⟩ :=
      qsPrefixLoop_spec sender c (ptGet q.powerTable sender)
        (List.range (chainSuffix c).length)
        { q with senders := q.senders ++ [sender],
                 sendersTotalPower := q.sendersTotalPower + ptGet q.powerTable sender }
        (prefixKeys_pairwise c) hsig1
    refine ⟨q', ?_, by rw [hsend], by rw [hpow], by rw [hjx], ?_, ?_⟩
    · simp [qsReceiveAllPrefixes, qsReceiveSender, hs]
      exact hrun
    · intro k hk
      refine hother k ?_
      intro j hj
      cases c with
      | nil => simp [chainSuffix] at hj
      | cons x xs =>
        have hjn : j < xs.length := by
          simpa [chainSuffix] using List.mem_range.mp hj
        rw [chainPrefixN_base_take x xs (j + 1) (by omega)]
        exact hk (j + 1) (by omega) (by simpa [chainSuffix] using by omega)
    · intro j hj1 hjn
      cases c with
      | nil => simp [chainSuffix] at hjn; omega
      | cons x xs =>
        have hjn' : j ≤ xs.length := by simpa [chainSuffix] using hjn
        have hbt : chainBaseChain (x :: xs) ++ (chainSuffix (x :: xs)).take j =
            chainPrefixN (x :: xs) j := (chainPrefixN_base_take x xs j hjn').symm
        obtain ⟨j', rfl⟩ : ∃ j', j = j' + 1 := ⟨j - 1, by omega⟩
        have hmem : j' ∈ List.range (chainSuffix (x :: xs)).length :=
          List.mem_range.mpr (by simpa [chainSuffix] using by omega)
        rw [hbt]
        rw [hhit j' hmem]
        congr 1

theorem c3_receive_all_prefixes_witness :
    ∃ q', qsReceiveAllPrefixes wQS 1 [t0, t1] = .ok q' ∧
      q'.senders = wQS.senders ++ [1] ∧
      q'.sendersTotalPower = wQS.sendersTotalPower + ptGet wQS.powerTable 1 ∧
      q'.receivedJustification = wQS.receivedJustification ∧
      (∀ k, (∀ j, 1 ≤ j → j ≤ (chainSuffix [t0, t1]).length →
          k ≠ chainKey (chainBaseChain [t0, t1] ++ (chainSuffix [t0, t1]).take j)) →
        alookup q'.chainSupport k = alookup wQS.chainSupport k) ∧
      (∀ j, 1 ≤ j → j ≤ (chainSuffix [t0, t1]).length →
        alookup q'.chainSupport
            (chainKey (chainBaseChain [t0, t1] ++ (chainSuffix [t0, t1]).take j)) =
          some (qsBump wQS (chainBaseChain [t0, t1] ++ (chainSuffix [t0, t1]).take j) 1
            (ptGet wQS.powerTable 1))) :=
  (c3_receive_all_prefixes wQS 1 [t0, t1]
    (fun k cs b h => by simp [wQS, newQuorumState, alookup] at h)).2 (by decide)

/-! ## C9 — codec round trip -/

/-- C9: with the cbor-gen marshaller and the zstd library meeting their
documented contracts (hypotheses: marshalling `m` succeeds with bytes
`bs`, unmarshalling `bs` yields `m` back, and decompression inverts
compression for payloads within the 1 MiB cap), `Decode(Encode(m))`
returns `m` under the plain CBOR codec and under the zstd-wrapped codec;
moreover any payload whose CBOR encoding exceeds 1 MiB is rejected by the
zstd encoder. -/
theorem c9_codec_round_trip {M : Type} (marshal : M → Bytes × Option String)
    (unmarshal : Bytes → Except String M) (compress : Bytes → Bytes)
    (decompress : Bytes → Except String Bytes) (m : M) (bs : Bytes)
    (hmar : marshal m = (bs, none))
    (hlen : bs.length ≤ maxDecompressedSize)
    (hunmar : unmarshal bs = .ok m)
    (hzstd : decompress (compress bs) = .ok bs) :
    (match cborEncode marshal m with
     | .ok enc => cborDecode unmarshal enc
     | .error e => .error e) = .ok m ∧
    (match zstdEncode marshal compress m with
     | .ok enc => zstdDecode unmarshal decompress enc
     | .error e => .error e) = .ok m ∧
    (∀ m' bs' e', marshal m' = (bs', e') → bs'.length > maxDecompressedSize →
      zstdEncode marshal compress m' = .error "encoded value cannot exceed maximum size") := by
  refine ⟨?_, ?_, ?_⟩
  · simp [cborEncode, cborDecode, hmar, hunmar]
  · have hnot : ¬ bs.length > maxDecompressedSize := by omega
    simp [zstdEncode, zstdDecode, cborDecode, hmar, hnot, hzstd, hunmar]
  · intro m' bs' e' hm hlen'
    simp [zstdEncode, hm, hlen']

theorem c9_codec_round_trip_witness :
    (([9] : Bytes).length ≤ maxDecompressedSize) ∧
      ((match cborEncode (fun (m : Bytes) => (m, (none : Option String))) [9] with
        | .ok enc => cborDecode (fun bs => (Except.ok bs : Except String Bytes)) enc
        | .error e => .error e) = .ok [9] ∧
      (match zstdEncode (fun (m : Bytes) => (m, (none : Option String))) id [9] with
        | .ok enc =>
          zstdDecode (fun bs => (Except.ok bs : Except String Bytes))
            (fun v => Except.ok v) enc
        | .error e => .error e) = .ok [9] ∧
      (∀ m' bs' e',
        (fun (m : Bytes) => (m, (none : Option String))) m' = (bs', e') →
        bs'.length > maxDecompressedSize →
        zstdEncode (fun (m : Bytes) => (m, (none : Option String))) id m' =
          .error "encoded value cannot exceed maximum size")) :=
  ⟨by decide,
    c9_codec_round_trip (fun m => (m, none)) (fun bs => Except.ok bs) id
      (fun v => Except.ok v) [9] [9] rfl (by decide) rfl rfl⟩

/-! ## C8 — behaviour after termination -/

/-- Supplemental data used by concrete instances below. -/
def wSupp : SupplementalData := { commitments := [], powerTable := [7] }

/-- A concrete configuration for witnesses: positive delays and
backoffs, lookahead 5, immediate-rebroadcast threshold 3. -/
def wCfg : Config :=
  { maxLookaheadRounds := 5, rebroadcastImmediatelyAfterRound := 3,
    rebroadcastAfter := fun _ => 1, delay := fun _ => 100,
    delayQuality := fun _ => 100, computeTicketRank := fun _ _ => Rank.fin 0,
    aggregate := fun _ _ => [] }

/-- A concrete instance whose phase is TERMINATED. -/
def wInstTerm : Instance :=
  { instanceID := 0, input := [t0], powerTable := wPT, beacon := [],
    round := 0, phase := .terminatedPhase, phaseTimeout := 0,
    rebroadcastTimeout := none, rebroadcastAttempts := 0,
    supplementalData := wSupp, proposal := [t0], value := [t0],
    candidates := [chainKey [t0]], terminationValue := none,
    quality := newQuorumState wPT, rounds := [(0, newRoundState wPT)],
    decision := newQuorumState wPT }

/-- A valid-shaped QUALITY message for instance 0. -/
def wMsg : GMessage :=
  { sender := 1,
    vote :=
      { instanceID := 0, round := 0, phase := .qualityPhase,
        supplementalData := wSupp, value := [t0] },
    signature := [], ticket := [], justification := none }

/-- C8 (counterexample): on a TERMINATED instance, `ReceiveAlarm` returns
no error at all (`tryCurrentPhase` is a silent no-op for the terminated
phase), contradicting the claim that every alarm after termination is
surfaced to the caller as an error.  The state is unchanged. -/
theorem c8_counterexample :
    (instReceiveAlarm wCfg wInstTerm 0).2 = Res.ok ∧
      (instReceiveAlarm wCfg wInstTerm 0).1 = wInstTerm :=
  ⟨rfl, rfl⟩

/-- C8 (amended): once the phase is TERMINATED, every message delivered
via `Receive` or `ReceiveMany` is surfaced as `ErrReceivedAfterTermination`
and leaves the state unchanged; an alarm delivered via `ReceiveAlarm`
also leaves the state unchanged but returns nil (no error). -/
theorem c8_after_termination (cfg : Config) (i : Instance) (now : Int)
    (msg : GMessage) (msgs : List GMessage) (h : i.phase = Phase.terminatedPhase) :
    instReceive cfg i now msg = (i, .err .receivedAfterTermination) ∧
    instReceiveMany cfg i now msgs = (i, .err .receivedAfterTermination) ∧
    instReceiveAlarm cfg i now = (i, .ok) := by
  refine ⟨?_, ?_, ?_⟩
  · simp [instReceive, h]
  · simp [instReceiveMany, h]
  · simp [instReceiveAlarm, tryCurrentPhase, h]

theorem c8_after_termination_witness :
    instReceive wCfg wInstTerm 0 wMsg = (wInstTerm, .err .receivedAfterTermination) ∧
    instReceiveMany wCfg wInstTerm 0 [wMsg] = (wInstTerm, .err .receivedAfterTermination) ∧
    instReceiveAlarm wCfg wInstTerm 0 = (wInstTerm, .ok) :=
  c8_after_termination wCfg wInstTerm 0 wMsg [wMsg] rfl

/-! ## C2 — FindStrongQuorumFor -/

/-- Per-index scaled power (zero beyond the table), as read by the
`FindStrongQuorumFor` accumulation loop. -/
def ptPowerAt (pt : PowerTable) (i : Nat) : Int := pt.scaledPower.getD i 0

/-- The signature fetched for a signer index by the accumulation loop. -/
def fsqSigAt (pt : PowerTable) (sigs : List (ActorID × Option Bytes)) (i : Nat) :
    Option Bytes :=
  (alookup sigs (pt.entries.getD i 0)).getD none

theorem sum_map_take_succ (w : Nat → Int) (l : List Nat) (k : Nat) (e : Nat)
    (he : l[k]? = some e) :
    ((l.take (k + 1)).map w).sum = ((l.take k).map w).sum + w e := by
  rw [List.take_succ, he]
  simp

theorem sorted_lt_sublist_sum_le (w : Nat → Int)
    (hmono : ∀ a b : Nat, a ≤ b → w b ≤ w a) :
    ∀ (l t : List Nat), t.Sublist l → l.Pairwise (· < ·) →
      (t.map w).sum ≤ ((l.take t.length).map w).sum := by
  intro l
  induction l with
  | nil =>
    intro t hsl _
    rw [List.sublist_nil.mp hsl]
    simp
  | cons a l2 ih =>
    intro t hsl hsorted
    obtain ⟨hahead, hsorted2⟩ := List.pairwise_cons.mp hsorted
    cases hsl with
    | cons _ hsl2 =>
      refine le_trans (ih t hsl2 hsorted2) ?_
      cases hn : t.length with
      | zero => simp
      | succ m =>
        have hmlen : m + 1 ≤ l2.length := hn ▸ hsl2.length_le
        have hm : m < l2.length := by omega
        have he : l2[m]? = some l2[m] := List.getElem?_eq_getElem hm
        have hstep := sum_map_take_succ w l2 m l2[m] he
        have hmem : l2[m] ∈ l2 := List.getElem_mem hm
        have hwe : w l2[m] ≤ w a := hmono a l2[m] (le_of_lt (hahead _ hmem))
        have hcons : (a :: l2).take (m + 1) = a :: l2.take m := rfl
        rw [hcons]
        simp only [List.map_cons, List.sum_cons]
        omega
    | cons₂ _ hsl2 =>
      have hIH := ih _ hsl2 hsorted2
      rename_i t2
      have hcons : (a :: l2).take (t2.length + 1) = a :: l2.take t2.length := rfl
      simp only [List.length_cons, hcons, List.map_cons, List.sum_cons]
      omega

theorem sorted_sublist_of_subset (l : List Nat) (hl : l.Pairwise (· < ·)) :
    ∀ t : List Nat, t.Pairwise (· < ·) → (∀ x ∈ t, x ∈ l) → t.Sublist l := by
  induction l with
  | nil =>
    intro t _ hsub
    cases t with
    | nil => simp
    | cons b t2 => exact absurd (hsub b (by simp)) (by simp)
  | cons a l2 ih =>
    intro t ht hsub
    obtain ⟨hal2, hl2⟩ := List.pairwise_cons.mp hl
    cases t with
    | nil => simp
    | cons b t2 =>
      obtain ⟨hbt2, ht2⟩ := List.pairwise_cons.mp ht
      by_cases hba : b = a
      · subst hba
        refine List.Sublist.cons₂ _ (ih hl2 t2 ht2 ?_)
        intro x hx
        have hbx : b < x := hbt2 x hx
        rcases List.mem_cons.mp (hsub x (by simp [hx])) with rfl | h
        · omega
        · exact h
      · have hb : b ∈ a :: l2 := hsub b (by simp)
        have hab : a < b := by
          rcases List.mem_cons.mp hb with rfl | hbl2
          · exact absurd rfl hba
          · exact hal2 b hbl2
        refine List.Sublist.cons _ (ih hl2 (b :: t2) ht ?_)
        intro x hx
        rcases List.mem_cons.mp hx with rfl | hx2
        · rcases List.mem_cons.mp hb with rfl | hbl2
          · exact absurd rfl hba
          · exact hbl2
        · have hbx : b < x := hbt2 x hx2
          rcases List.mem_cons.mp (hsub x (by simp [hx2])) with rfl | h
          · omega
          · exact h

theorem fsqIndices_eq_map (lk : List (ActorID × Nat)) (sigs : List (ActorID × Option Bytes))
    (hfound : ∀ p ∈ sigs, (alookup lk p.1).isSome = true) :
    fsqIndices lk sigs = .ok (sigs.map (fun p => (alookup lk p.1).getD 0)) := by
  induction sigs with
  | nil => rfl
  | cons p rest ih =>
    obtain ⟨id, s⟩ := p
    have hh := hfound (id, s) (by simp)
    cases hlk : alookup lk id with
    | none => rw [hlk] at hh; simp at hh
    | some idx =>
      have hrest := ih (fun p hp => hfound p (by simp [hp]))
      simp [fsqIndices, hlk, hrest]

theorem fsqLoop_cons (pt : PowerTable) (sigs : List (ActorID × Option Bytes))
    (i : Nat) (rest taken : List Nat) (takenSigs : List (Option Bytes)) (acc : Int)
    (hib : ¬ i ≥ pt.entries.length) :
    fsqLoop pt sigs (i :: rest) taken takenSigs acc =
      if IsStrongQuorum (acc + ptPowerAt pt i) pt.scaledTotal then
        .ok (some { signers := taken ++ [i],
                    signatures := takenSigs ++ [fsqSigAt pt sigs i] })
      else
        fsqLoop pt sigs rest (taken ++ [i]) (takenSigs ++ [fsqSigAt pt sigs i])
          (acc + ptPowerAt pt i) := by
  conv_lhs => rw [fsqLoop]
  rw [if_neg hib]
  rfl

theorem fsqLoop_spec (pt : PowerTable) (sigs : List (ActorID × Option Bytes)) :
    ∀ (l taken : List Nat) (takenSigs : List (Option Bytes)) (acc : Int),
      (∀ i ∈ l, i < pt.entries.length) →
      IsStrongQuorum (acc + (l.map (ptPowerAt pt)).sum) pt.scaledTotal = true →
      IsStrongQuorum acc pt.scaledTotal = false →
      ∃ n, 1 ≤ n ∧ n ≤ l.length ∧
        fsqLoop pt sigs l taken takenSigs acc =
          .ok (some { signers := taken ++ l.take n,
                      signatures := takenSigs ++ (l.take n).map (fsqSigAt pt sigs) }) ∧
        IsStrongQuorum (acc + ((l.take n).map (ptPowerAt pt)).sum) pt.scaledTotal = true ∧
        (∀ m, m < n →
          IsStrongQuorum (acc + ((l.take m).map (ptPowerAt pt)).sum) pt.scaledTotal = false) := by
  intro l
  induction l with
  | nil =>
    intro taken takenSigs acc _ hreach hfalse
    simp at hreach
    rw [hreach] at hfalse
    exact absurd hfalse (by simp)
  | cons i rest ih =>
    intro taken takenSigs acc hbound hreach hfalse
    have hib : ¬ i ≥ pt.entries.length := by
      have := hbound i (by simp)
      omega
    cases hq : IsStrongQuorum (acc + ptPowerAt pt i) pt.scaledTotal with
    | true =>
      refine ⟨1, by omega, by simp, ?_, ?_, ?_⟩
      · rw [fsqLoop_cons pt sigs i rest taken takenSigs acc hib]
        have hcons : (i :: rest).take 1 = [i] := rfl
        rw [hcons]
        simp [hq]
      · have hcons : (i :: rest).take 1 = [i] := rfl
        rw [hcons]
        simpa using hq
      · intro m hm
        interval_cases m
        simpa using hfalse
    | false =>
      have hreach2 : IsStrongQuorum ((acc + ptPowerAt pt i) + (rest.map (ptPowerAt pt)).sum)
          pt.scaledTotal = true := by
        have hrw : (acc + ptPowerAt pt i) + (rest.map (ptPowerAt pt)).sum =
            acc + ((i :: rest).map (ptPowerAt pt)).sum := by
          simp
          ring
        rw [hrw]
        exact hreach
      obtain ⟨n, hn1, hnlen, hrun, hhit, hmin⟩ :=
        ih (taken ++ [i]) (takenSigs ++ [fsqSigAt pt sigs i]) (acc + ptPowerAt pt i)
          (fun x hx => hbound x (by simp [hx])) hreach2 hq
      refine ⟨n + 1, by omega, by simp; omega, ?_, ?_, ?_⟩
      · rw [fsqLoop_cons pt sigs i rest taken takenSigs acc hib]
        have hcons : (i :: rest).take (n + 1) = i :: rest.take n := rfl
        rw [hcons]
        simp only [hq, Bool.false_eq_true, if_false]
        rw [hrun]
        simp
      · have hcons : (i :: rest).take (n + 1) = i :: rest.take n := rfl
        rw [hcons]
        simp only [List.map_cons, List.sum_cons]
        have hrw : acc + (ptPowerAt pt i + ((rest.take n).map (ptPowerAt pt)).sum) =
            (acc + ptPowerAt pt i) + ((rest.take n).map (ptPowerAt pt)).sum := by ring
        rw [hrw]
        exact hhit
      · intro m hm
        cases m with
        | zero => simpa using hfalse
        | succ m' =>
          have hcons : (i :: rest).take (m' + 1) = i :: rest.take m' := rfl
          rw [hcons]
          simp only [List.map_cons, List.sum_cons]
          have hrw : acc + (ptPowerAt pt i + ((rest.take m').map (ptPowerAt pt)).sum) =
              (acc + ptPowerAt pt i) + ((rest.take m').map (ptPowerAt pt)).sum := by ring
          rw [hrw]
          exact hmin m' (by omega)

theorem isStrongQuorum_mono (a b tot : Int) (hab : a ≤ b)
    (h : IsStrongQuorum a tot = true) : IsStrongQuorum b tot = true := by
  simp [IsStrongQuorum] at h ⊢
  omega

theorem isStrongQuorum_zero_false (tot : Int) (h0 : 0 < tot) (h1 : tot < 2 ^ 62) :
    IsStrongQuorum 0 tot = false := by
  have hiff := isStrongQuorum_iff 0 tot (by omega) h1
  rw [ceilDiv_three] at hiff
  cases hq : IsStrongQuorum 0 tot with
  | false => rfl
  | true =>
    have := hiff.mp hq
    omega

theorem ptPowerAt_eq (pt : PowerTable) (i : Nat) (h : i < pt.scaledPower.length) :
    ptPowerAt pt i = pt.scaledPower[i] :=
  List.getD_eq_getElem _ _ h

theorem ptPowerAt_zero (pt : PowerTable) (i : Nat) (h : pt.scaledPower.length ≤ i) :
    ptPowerAt pt i = 0 :=
  List.getD_eq_default _ _ h

theorem ptPowerAt_nonneg (pt : PowerTable) (hnonneg : ∀ w ∈ pt.scaledPower, 0 ≤ w)
    (i : Nat) : 0 ≤ ptPowerAt pt i := by
  by_cases h : i < pt.scaledPower.length
  · rw [ptPowerAt_eq pt i h]
    exact hnonneg _ (List.getElem_mem h)
  · rw [ptPowerAt_zero pt i (by omega)]

theorem ptPowerAt_antitone (pt : PowerTable)
    (hsorted : pt.scaledPower.Pairwise (fun x y => y ≤ x))
    (hnonneg : ∀ w ∈ pt.scaledPower, 0 ≤ w) :
    ∀ a b : Nat, a ≤ b → ptPowerAt pt b ≤ ptPowerAt pt a := by
  intro a b hab
  by_cases hb : b < pt.scaledPower.length
  · have ha : a < pt.scaledPower.length := lt_of_le_of_lt hab hb
    rcases eq_or_lt_of_le hab with rfl | hlt
    · exact le_refl _
    · have hpp := List.pairwise_iff_getElem.mp hsorted a b ha hb hlt
      rw [ptPowerAt_eq pt a ha, ptPowerAt_eq pt b hb]
      exact hpp
  · rw [ptPowerAt_zero pt b (by omega)]
    exact ptPowerAt_nonneg pt hnonneg a

theorem alookup_perm {α β : Type} [DecidableEq α] {l₁ l₂ : List (α × β)}
    (hp : l₁.Perm l₂) :
    ∀ (_ : (l₁.map Prod.fst).Nodup) (k : α), alookup l₁ k = alookup l₂ k := by
  induction hp with
  | nil => intro _ k; rfl
  | cons p hp ih =>
    intro hnd k
    obtain ⟨a, b⟩ := p
    simp only [List.map_cons, List.nodup_cons] at hnd
    by_cases hak : a = k
    · simp [alookup, hak]
    · simp [alookup, hak]
      exact ih hnd.2 k
  | swap p q l =>
    intro hnd k
    obtain ⟨a, b⟩ := p
    obtain ⟨a', b'⟩ := q
    simp only [List.map_cons, List.nodup_cons, List.mem_cons] at hnd
    have hne : a' ≠ a := fun hh => hnd.1 (Or.inl hh)
    by_cases hak : a = k
    · subst hak
      simp [alookup, hne]
    · by_cases hak' : a' = k
      · subst hak'
        simp [alookup, Ne.symm hne, hak]
      · simp [alookup, hak, hak']
  | trans h1 h2 ih1 ih2 =>
    intro hnd k
    rw [ih1 hnd k, ih2 (((h1.map Prod.fst).nodup_iff).mp hnd) k]

theorem fsqLoop_congr (pt : PowerTable) (sigs sigs' : List (ActorID × Option Bytes))
    (hlk : ∀ a, alookup sigs a = alookup sigs' a) :
    ∀ (l taken : List Nat) (takenSigs : List (Option Bytes)) (acc : Int),
      fsqLoop pt sigs l taken takenSigs acc = fsqLoop pt sigs' l taken takenSigs acc := by
  intro l
  induction l with
  | nil => intro taken takenSigs acc; rfl
  | cons i rest ih =>
    intro taken takenSigs acc
    by_cases hib : i ≥ pt.entries.length
    · simp [fsqLoop, hib]
    · rw [fsqLoop_cons pt sigs i rest taken takenSigs acc hib,
        fsqLoop_cons pt sigs' i rest taken takenSigs acc hib]
      rw [show fsqSigAt pt sigs i = fsqSigAt pt sigs' i from by simp [fsqSigAt, hlk]]
      split
      · rfl
      · exact ih (taken ++ [i]) (takenSigs ++ [fsqSigAt pt sigs' i]) (acc + ptPowerAt pt i)

/-- C2: for a quorum state whose power table is well formed (descending
non-negative scaled powers, consistent injective lookup) and whose entry
for `k` satisfies the accumulator invariants (distinct recorded signers,
power = sum of their scaled powers, the cached strong-quorum bit), if `k`
has strong quorum then `FindStrongQuorumFor(k)` succeeds with a signer
set in ascending power-table index order, drawn from the recorded
signers, whose cumulative scaled power is a strong quorum, and of
smallest cardinality among all sets of recorded-signer indices reaching
strong quorum; the result is unchanged under any reordering of the
recorded signature map (determinism w.r.t. Go map iteration order); and
without strong quorum the function returns ok = false. -/
theorem c2_find_strong_quorum (q : QuorumState) (k : ChainKey) (cs : ChainSupport)
    (hcs : alookup q.chainSupport k = some cs)
    (hnodup : (cs.signatures.map Prod.fst).Nodup)
    (hfound : ∀ p ∈ cs.signatures, (alookup q.powerTable.lookup p.1).isSome = true)
    (hboundlk : ∀ id idx, alookup q.powerTable.lookup id = some idx →
      idx < q.powerTable.entries.length)
    (hinj : ∀ id id' idx, alookup q.powerTable.lookup id = some idx →
      alookup q.powerTable.lookup id' = some idx → id = id')
    (hsorted : q.powerTable.scaledPower.Pairwise (fun x y => y ≤ x))
    (hnonneg : ∀ w ∈ q.powerTable.scaledPower, 0 ≤ w)
    (hpower : cs.power = (cs.signatures.map
      (fun p => ptPowerAt q.powerTable ((alookup q.powerTable.lookup p.1).getD 0))).sum)
    (hsq : cs.hasStrongQuorum = IsStrongQuorum cs.power q.powerTable.scaledTotal)
    (htot0 : 0 < q.powerTable.scaledTotal)
    (htot1 : q.powerTable.scaledTotal < 2 ^ 62) :
    (cs.hasStrongQuorum = true →
      ∃ qr, qsFindStrongQuorumFor q k = .ok (some qr) ∧
        qr.signers.Pairwise (· < ·) ∧
        (∀ i ∈ qr.signers, ∃ p ∈ cs.signatures, alookup q.powerTable.lookup p.1 = some i) ∧
        IsStrongQuorum ((qr.signers.map (ptPowerAt q.powerTable)).sum)
          q.powerTable.scaledTotal = true ∧
        (∀ t : List Nat, t.Nodup →
          (∀ i ∈ t, ∃ p ∈ cs.signatures, alookup q.powerTable.lookup p.1 = some i) →
          IsStrongQuorum ((t.map (ptPowerAt q.powerTable)).sum)
            q.powerTable.scaledTotal = true →
          qr.signers.length ≤ t.length)) ∧
    (∀ q2 cs2, q2.powerTable = q.powerTable →
      alookup q2.chainSupport k = some cs2 →
      cs2.hasStrongQuorum = cs.hasStrongQuorum →
      cs2.signatures.Perm cs.signatures →
      qsFindStrongQuorumFor q2 k = qsFindStrongQuorumFor q k) ∧
    (∀ q0 : QuorumState, qsHasStrongQuorumFor q0 k = false →
      qsFindStrongQuorumFor q0 k = .ok none) := by
  have hIdx : fsqIndices q.powerTable.lookup cs.signatures =
      .ok (cs.signatures.map (fun p => (alookup q.powerTable.lookup p.1).getD 0)) :=
    fsqIndices_eq_map _ _ hfound
  have hnodupIdx :
      (cs.signatures.map (fun p => (alookup q.powerTable.lookup p.1).getD 0)).Nodup := by
    have h2 : cs.signatures.map (fun p => (alookup q.powerTable.lookup p.1).getD 0) =
        (cs.signatures.map Prod.fst).map
          (fun id => (alookup q.powerTable.lookup id).getD 0) := by
      rw [List.map_map]
      rfl
    rw [h2]
    apply hnodup.map_on
    intro x hx y hy hgxy
    obtain ⟨px, hpx, rfl⟩ := List.mem_map.mp hx
    obtain ⟨py, hpy, rfl⟩ := List.mem_map.mp hy
    have hfx := hfound px hpx
    have hfy := hfound py hpy
    cases hlx : alookup q.powerTable.lookup px.1 with
    | none => rw [hlx] at hfx; simp at hfx
    | some ix =>
      cases hly : alookup q.powerTable.lookup py.1 with
      | none => rw [hly] at hfy; simp at hfy
      | some iy =>
        rw [hlx, hly] at hgxy
        simp at hgxy
        exact hinj px.1 py.1 ix hlx (by rw [hly, hgxy])
  have hmemS : ∀ i ∈ List.insertionSort (· ≤ ·)
        (cs.signatures.map (fun p => (alookup q.powerTable.lookup p.1).getD 0)),
      ∃ p ∈ cs.signatures, alookup q.powerTable.lookup p.1 = some i := by
    intro i hi
    have hi' := (List.perm_insertionSort (· ≤ ·) _).mem_iff.mp hi
    obtain ⟨p, hp, rfl⟩ := List.mem_map.mp hi'
    refine ⟨p, hp, ?_⟩
    have hf := hfound p hp
    cases hl : alookup q.powerTable.lookup p.1 with
    | none => rw [hl] at hf; simp at hf
    | some ix => rfl
  refine ⟨?_, ?_, ?_⟩
  · -- strong quorum: the greedy scan succeeds and is minimal
    intro hsqt
    have hpermS := List.perm_insertionSort (· ≤ ·)
      (cs.signatures.map (fun p => (alookup q.powerTable.lookup p.1).getD 0))
    have hsortedS := List.sorted_insertionSort (· ≤ ·)
      (cs.signatures.map (fun p => (alookup q.powerTable.lookup p.1).getD 0))
    have hnodupS := (hpermS.nodup_iff).mpr hnodupIdx
    have hpairS : (List.insertionSort (· ≤ ·)
        (cs.signatures.map (fun p => (alookup q.powerTable.lookup p.1).getD 0))).Pairwise
          (· < ·) :=
      (hsortedS.and hnodupS).imp (fun hh => lt_of_le_of_ne hh.1 hh.2)
    have hboundS : ∀ i ∈ List.insertionSort (· ≤ ·)
          (cs.signatures.map (fun p => (alookup q.powerTable.lookup p.1).getD 0)),
        i < q.powerTable.entries.length := by
      intro i hi
      obtain ⟨p, _, hlk⟩ := hmemS i hi
      exact hboundlk p.1 i hlk
    have hsum : ((List.insertionSort (· ≤ ·)
          (cs.signatures.map (fun p => (alookup q.powerTable.lookup p.1).getD 0))).map
            (ptPowerAt q.powerTable)).sum = cs.power := by
      rw [(hpermS.map (ptPowerAt q.powerTable)).sum_eq, hpower, List.map_map]
      rfl
    have hreach : IsStrongQuorum (0 + ((List.insertionSort (· ≤ ·)
          (cs.signatures.map (fun p => (alookup q.powerTable.lookup p.1).getD 0))).map
            (ptPowerAt q.powerTable)).sum) q.powerTable.scaledTotal = true := by
      rw [zero_add, hsum, ← hsq]
      exact hsqt
    obtain ⟨n, hn1, hnlen, hrun, hhit, hmin⟩ :=
      fsqLoop_spec q.powerTable cs.signatures
        (List.insertionSort (· ≤ ·)
          (cs.signatures.map (fun p => (alookup q.powerTable.lookup p.1).getD 0)))
        [] [] 0 hboundS hreach (isStrongQuorum_zero_false _ htot0 htot1)
    rw [List.nil_append, List.nil_append] at hrun
    have hfind : qsFindStrongQuorumFor q k = .ok (some
        { signers := (List.insertionSort (· ≤ ·)
            (cs.signatures.map (fun p => (alookup q.powerTable.lookup p.1).getD 0))).take n,
          signatures := ((List.insertionSort (· ≤ ·)
            (cs.signatures.map
              (fun p => (alookup q.powerTable.lookup p.1).getD 0))).take n).map
            (fsqSigAt q.powerTable cs.signatures) }) := by
      unfold qsFindStrongQuorumFor
      rw [hcs]
      dsimp only
      rw [hsqt]
      simp only [Bool.not_true, Bool.false_eq_true, if_false]
      rw [hIdx]
      exact hrun
    have hlentake : ((List.insertionSort (· ≤ ·)
        (cs.signatures.map (fun p => (alookup q.powerTable.lookup p.1).getD 0))).take
          n).length = n := by
      have h2 := hnlen
      simp at h2
      simp [List.length_take]
      omega
    refine ⟨_, hfind, ?_, ?_, ?_, ?_⟩
    · exact hpairS.sublist (List.take_sublist _ _)
    · intro i hi
      exact hmemS i ((List.take_sublist _ _).mem hi)
    · have := hhit
      rw [zero_add] at this
      exact this
    · intro t hnodupT hmemT hreachT
      by_contra hlt
      push_neg at hlt
      rw [hlentake] at hlt
      -- sort the candidate set and compare against the greedy prefix
      have htsperm := List.perm_insertionSort (· ≤ ·) t
      have htsnodup := (htsperm.nodup_iff).mpr hnodupT
      have htssorted := List.sorted_insertionSort (· ≤ ·) t
      have htspair : (List.insertionSort (· ≤ ·) t).Pairwise (· < ·) :=
        (htssorted.and htsnodup).imp (fun hh => lt_of_le_of_ne hh.1 hh.2)
      have htsmem : ∀ x ∈ List.insertionSort (· ≤ ·) t,
          x ∈ List.insertionSort (· ≤ ·)
            (cs.signatures.map (fun p => (alookup q.powerTable.lookup p.1).getD 0)) := by
        intro x hx
        have hxt : x ∈ t := htsperm.mem_iff.mp hx
        obtain ⟨p, hp, hlk⟩ := hmemT x hxt
        have hxi : x ∈ cs.signatures.map
            (fun p => (alookup q.powerTable.lookup p.1).getD 0) := by
          refine List.mem_map.mpr ⟨p, hp, ?_⟩
          rw [hlk]
          rfl
        exact (List.perm_insertionSort (· ≤ ·) _).mem_iff.mpr hxi
      have hsl := sorted_sublist_of_subset _ hpairS (List.insertionSort (· ≤ ·) t)
        htspair htsmem
      have hsumle := sorted_lt_sublist_sum_le (ptPowerAt q.powerTable)
        (ptPowerAt_antitone q.powerTable hsorted hnonneg) _ _ hsl hpairS
      have hsumeq : ((List.insertionSort (· ≤ ·) t).map (ptPowerAt q.powerTable)).sum =
          (t.map (ptPowerAt q.powerTable)).sum :=
        (htsperm.map (ptPowerAt q.powerTable)).sum_eq
      have hlents : (List.insertionSort (· ≤ ·) t).length = t.length :=
        htsperm.length_eq
      have hminapp := hmin t.length (by omega)
      rw [zero_add] at hminapp
      have hmono := isStrongQuorum_mono (t.map (ptPowerAt q.powerTable)).sum
        (((List.insertionSort (· ≤ ·)
          (cs.signatures.map (fun p => (alookup q.powerTable.lookup p.1).getD 0))).take
            t.length).map (ptPowerAt q.powerTable)).sum q.powerTable.scaledTotal
        (by rw [← hsumeq, ← hlents]; exact hsumle) hreachT
      rw [hminapp] at hmono
      exact absurd hmono (by simp)
  · -- determinism under reordering of the signature map
    intro q2 cs2 hpt2 hcs2 hsq2 hperm2
    have hfound2 : ∀ p ∈ cs2.signatures, (alookup q2.powerTable.lookup p.1).isSome = true := by
      intro p hp
      rw [hpt2]
      exact hfound p (hperm2.mem_iff.mp hp)
    have hIdx2 : fsqIndices q2.powerTable.lookup cs2.signatures =
        .ok (cs2.signatures.map (fun p => (alookup q2.powerTable.lookup p.1).getD 0)) :=
      fsqIndices_eq_map _ _ hfound2
    have hpermIdx : (cs2.signatures.map
        (fun p => (alookup q2.powerTable.lookup p.1).getD 0)).Perm
          (cs.signatures.map (fun p => (alookup q.powerTable.lookup p.1).getD 0)) := by
      rw [hpt2]
      exact hperm2.map _
    have hsorteq : List.insertionSort (· ≤ ·)
        (cs2.signatures.map (fun p => (alookup q2.powerTable.lookup p.1).getD 0)) =
          List.insertionSort (· ≤ ·)
        (cs.signatures.map (fun p => (alookup q.powerTable.lookup p.1).getD 0)) :=
      List.eq_of_perm_of_sorted
        ((List.perm_insertionSort _ _).trans
          (hpermIdx.trans (List.perm_insertionSort _ _).symm))
        (List.sorted_insertionSort _ _) (List.sorted_insertionSort _ _)
    have hnodup2 : (cs2.signatures.map Prod.fst).Nodup :=
      ((hperm2.map Prod.fst).nodup_iff).mpr hnodup
    have hlkeq : ∀ a, alookup cs2.signatures a = alookup cs.signatures a :=
      fun a => alookup_perm hperm2 hnodup2 a
    unfold qsFindStrongQuorumFor
    rw [hcs, hcs2]
    dsimp only
    rw [hsq2]
    cases hb : cs.hasStrongQuorum with
    | false => simp
    | true =>
      simp only [Bool.not_true, Bool.false_eq_true, if_false]
      rw [hIdx, hIdx2]
      dsimp only
      rw [hsorteq, hpt2]
      exact fsqLoop_congr q.powerTable cs2.signatures cs.signatures hlkeq _ [] [] 0
  · -- no strong quorum: ok = false
    intro q0 h0
    unfold qsFindStrongQuorumFor
    unfold qsHasStrongQuorumFor at h0
    cases hl : alookup q0.chainSupport k with
    | none => rfl
    | some cs0 =>
      rw [hl] at h0
      dsimp only at h0
      dsimp only
      rw [h0]
      simp

/-- Chain support for the `c2` witness: both actors of `wPT` signed
(power 6 + 4 = 10 of 10), the strong-quorum bit cached true. -/
def wCS2 : ChainSupport :=
  { chain := [t0], power := 10, signatures := [(1, none), (2, none)],
    hasStrongQuorum := true }

/-- A quorum state over `wPT` with `wCS2` recorded under key `[1]`. -/
def wQS2 : QuorumState :=
  { senders := [1, 2], sendersTotalPower := 10,
    chainSupport := [([1], wCS2)], powerTable := wPT,
    receivedJustification := [] }

theorem wPT_lookup_cases (id : ActorID) (idx : Nat)
    (h : alookup wPT.lookup id = some idx) :
    (id = 1 ∧ idx = 0) ∨ (id = 2 ∧ idx = 1) := by
  have g : (if (1 : ActorID) = id then some (0 : Nat)
      else if (2 : ActorID) = id then some 1 else none) = some idx := h
  split at g
  · next h1 => exact Or.inl ⟨h1.symm, by injection g with hg; omega⟩
  · next h1 =>
    split at g
    · next h2 => exact Or.inr ⟨h2.symm, by injection g with hg; omega⟩
    · exact absurd g (by simp)

theorem wPT_lookup_bound (id : ActorID) (idx : Nat)
    (h : alookup wPT.lookup id = some idx) : idx < wPT.entries.length := by
  rcases wPT_lookup_cases id idx h with ⟨_, rfl⟩ | ⟨_, rfl⟩ <;> decide

theorem wPT_lookup_inj (id id' : ActorID) (idx : Nat)
    (h : alookup wPT.lookup id = some idx)
    (h' : alookup wPT.lookup id' = some idx) : id = id' := by
  rcases wPT_lookup_cases id idx h with ⟨h1, h2⟩ | ⟨h1, h2⟩ <;>
    rcases wPT_lookup_cases id' idx h' with ⟨h3, h4⟩ | ⟨h3, h4⟩ <;>
      first
      | exact h1.trans h3.symm
      | omega

theorem c2_find_strong_quorum_witness :
    (wCS2.hasStrongQuorum = true →
      ∃ qr, qsFindStrongQuorumFor wQS2 [1] = .ok (some qr) ∧
        qr.signers.Pairwise (· < ·) ∧
        (∀ i ∈ qr.signers,
          ∃ p ∈ wCS2.signatures, alookup wQS2.powerTable.lookup p.1 = some i) ∧
        IsStrongQuorum ((qr.signers.map (ptPowerAt wQS2.powerTable)).sum)
          wQS2.powerTable.scaledTotal = true ∧
        (∀ t : List Nat, t.Nodup →
          (∀ i ∈ t, ∃ p ∈ wCS2.signatures, alookup wQS2.powerTable.lookup p.1 = some i) →
          IsStrongQuorum ((t.map (ptPowerAt wQS2.powerTable)).sum)
            wQS2.powerTable.scaledTotal = true →
          qr.signers.length ≤ t.length)) ∧
    (∀ q2 cs2, q2.powerTable = wQS2.powerTable →
      alookup q2.chainSupport [1] = some cs2 →
      cs2.hasStrongQuorum = wCS2.hasStrongQuorum →
      cs2.signatures.Perm wCS2.signatures →
      qsFindStrongQuorumFor q2 [1] = qsFindStrongQuorumFor wQS2 [1]) ∧
    (∀ q0 : QuorumState, qsHasStrongQuorumFor q0 [1] = false →
      qsFindStrongQuorumFor q0 [1] = .ok none) :=
  c2_find_strong_quorum wQS2 [1] wCS2 rfl (by decide) (by decide)
    (fun id idx h => wPT_lookup_bound id idx h)
    (fun id id' idx h h' => wPT_lookup_inj id id' idx h h')
    (by decide) (by decide) (by decide) (by decide) (by decide) (by decide)

/-! ## C5 — monotonicity of the candidate set -/

theorem addCandidate_cand (i : Instance) (c : ECChain) :
    List.Sublist i.candidates (addCandidate i c).1.candidates := by
  unfold addCandidate
  dsimp only
  split
  · exact List.Sublist.refl _
  · exact List.sublist_append_left _ _

theorem addCandidatePrefixesLoop_cand (c : ECChain) (n : Nat) :
    ∀ i : Instance, List.Sublist i.candidates (addCandidatePrefixesLoop i c n).1.candidates := by
  induction n with
  | zero => intro i; exact List.Sublist.refl _
  | succ l ih =>
    intro i
    simp only [addCandidatePrefixesLoop]
    split
    · exact addCandidate_cand i _
    · exact (addCandidate_cand i _).trans (ih _)

theorem addCandidatePrefixes_cand (i : Instance) (c : ECChain) :
    List.Sublist i.candidates (addCandidatePrefixes i c).1.candidates :=
  addCandidatePrefixesLoop_cand c _ i

theorem getRound_candidates (i : Instance) (r : Nat) :
    (getRound i r).2.candidates = i.candidates := by
  unfold getRound
  split <;> rfl

theorem tryRebroadcast_candidates (cfg : Config) (now : Int) (i : Instance) :
    (tryRebroadcast cfg now i).candidates = i.candidates := by
  unfold tryRebroadcast
  dsimp only
  repeat' split
  all_goals rfl

theorem beginQuality_candidates (cfg : Config) (now : Int) (i : Instance) :
    (beginQuality cfg now i).1.candidates = i.candidates := by
  unfold beginQuality
  split <;> rfl

theorem beginPrepare_candidates (cfg : Config) (now : Int) (i : Instance)
    (j : Option Justification) :
    (beginPrepare cfg now i j).1.candidates = i.candidates := rfl

theorem beginCommit_candidates (cfg : Config) (now : Int) (i : Instance) :
    (beginCommit cfg now i).1.candidates = i.candidates := by
  unfold beginCommit
  dsimp only
  repeat' split
  all_goals simp [getRound_candidates, resetRebroadcastParams]

theorem beginDecide_candidates (cfg : Config) (i : Instance) (round : Nat) :
    (beginDecide cfg i round).1.candidates = i.candidates := by
  unfold beginDecide
  dsimp only
  repeat' split
  all_goals simp [getRound_candidates, resetRebroadcastParams]

theorem beginConverge_candidates (cfg : Config) (now : Int) (i : Instance)
    (j : Justification) :
    (beginConverge cfg now i j).1.candidates = i.candidates := by
  unfold beginConverge
  dsimp only
  repeat' split
  all_goals simp [setRound, getRound_candidates, resetRebroadcastParams]

theorem beginNextRound_candidates (cfg : Config) (now : Int) (i : Instance) :
    (beginNextRound cfg now i).1.candidates = i.candidates := by
  unfold beginNextRound
  dsimp only
  repeat' split
  all_goals simp [beginConverge_candidates, getRound_candidates]

theorem skipToRound_cand (cfg : Config) (now : Int) (i : Instance) (round : Nat)
    (chain : ECChain) (j : Justification) :
    List.Sublist i.candidates (skipToRound cfg now i round chain j).1.candidates := by
  unfold skipToRound
  dsimp only
  split
  · rw [beginConverge_candidates]
    exact addCandidate_cand { i with round := round } chain
  · rw [beginConverge_candidates]

theorem updateCandidatesFromQuality_cand (i : Instance) :
    List.Sublist i.candidates (updateCandidatesFromQuality i).1.candidates := by
  unfold updateCandidatesFromQuality
  dsimp only
  exact addCandidatePrefixes_cand i _

theorem tryQuality_cand (cfg : Config) (now : Int) (i : Instance) :
    List.Sublist i.candidates (tryQuality cfg now i).1.candidates := by
  unfold tryQuality
  dsimp only
  split
  · exact List.Sublist.refl _
  · split
    · rw [beginPrepare_candidates]
      exact addCandidatePrefixes_cand
        { i with proposal := qsFindStrongQuorumValueForLongestPrefixOf i.quality i.input } _
    · exact List.Sublist.refl _

theorem tryConverge_cand (cfg : Config) (now : Int) (i : Instance) :
    List.Sublist i.candidates (tryConverge cfg now i).1.candidates := by
  unfold tryConverge
  dsimp only
  repeat' split
  all_goals try dsimp only
  all_goals
    first
    | exact List.Sublist.refl _
    | (simp only [getRound_candidates]; exact List.Sublist.refl _)
    | (rw [beginPrepare_candidates]
       refine List.Sublist.trans ?_ (addCandidate_cand _ _)
       simp only [getRound_candidates]
       exact List.Sublist.refl _)
    | rw [tryRebroadcast_candidates]

theorem tryPrepare_candidates (cfg : Config) (now : Int) (i : Instance) :
    (tryPrepare cfg now i).1.candidates = i.candidates := by
  unfold tryPrepare
  dsimp only
  repeat' split
  all_goals
    simp [beginCommit_candidates, tryRebroadcast_candidates, getRound_candidates]

theorem commitSway_cand (i : Instance) (q : QuorumState) :
    List.Sublist i.candidates (commitSway i q).candidates := by
  unfold commitSway
  dsimp only
  repeat' split
  all_goals
    first
    | exact List.Sublist.refl _
    | exact addCandidate_cand _ _

theorem tryCommit_cand (cfg : Config) (now : Int) (i : Instance) (round : Nat) :
    List.Sublist i.candidates (tryCommit cfg now i round).1.candidates := by
  unfold tryCommit
  dsimp only
  repeat' split
  all_goals
    first
    | (simp only [beginDecide_candidates, beginNextRound_candidates,
        tryRebroadcast_candidates, getRound_candidates]
       exact List.Sublist.refl _)
    | (rw [beginNextRound_candidates]
       refine List.Sublist.trans ?_ (commitSway_cand _ _)
       simp only [getRound_candidates]
       exact List.Sublist.refl _)

theorem tryDecide_candidates (cfg : Config) (now : Int) (i : Instance) :
    (tryDecide cfg now i).1.candidates = i.candidates := by
  unfold tryDecide
  repeat' split
  all_goals simp [terminate, resetRebroadcastParams, tryRebroadcast_candidates]

theorem tryCurrentPhase_cand (cfg : Config) (now : Int) (i : Instance) :
    List.Sublist i.candidates (tryCurrentPhase cfg now i).1.candidates := by
  unfold tryCurrentPhase
  split
  · exact tryQuality_cand cfg now i
  · exact tryConverge_cand cfg now i
  · rw [tryPrepare_candidates]
  · exact tryCommit_cand cfg now i i.round
  · rw [tryDecide_candidates]
  · exact List.Sublist.refl _
  · exact List.Sublist.refl _

theorem skipToDecide_candidates (i : Instance) (v : ECChain) (j : Option Justification) :
    (skipToDecide i v j).candidates = i.candidates := rfl

theorem shouldSkipToRound_candidates (i : Instance) (round : Nat) :
    (shouldSkipToRound i round).2.candidates = i.candidates := by
  unfold shouldSkipToRound
  dsimp only
  repeat' split
  all_goals simp [getRound_candidates]

theorem postReceiveLoop_cand (cfg : Config) (now : Int) (rounds : List Nat) :
    ∀ i : Instance, List.Sublist i.candidates (postReceiveLoop cfg now rounds i).1.candidates := by
  induction rounds with
  | nil => intro i; exact List.Sublist.refl _
  | cons r rest ih =>
    intro i
    simp only [postReceiveLoop]
    split
    · next heq =>
      have hc : (shouldSkipToRound i r).2.candidates = i.candidates :=
        shouldSkipToRound_candidates i r
      rw [heq] at hc
      rw [← hc]
      exact skipToRound_cand cfg now _ r _ _
    · next heq =>
      have hc : (shouldSkipToRound i r).2.candidates = i.candidates :=
        shouldSkipToRound_candidates i r
      rw [heq] at hc
      rw [← hc]
      exact ih _

theorem postReceive_cand (cfg : Config) (now : Int) (i : Instance) (rounds : List Nat) :
    List.Sublist i.candidates (postReceive cfg now i rounds).1.candidates :=
  postReceiveLoop_cand cfg now rounds.reverse i

theorem receiveOne_cand (cfg : Config) (now : Int) (i : Instance) (msg : GMessage) :
    List.Sublist i.candidates (receiveOne cfg now i msg).1.candidates := by
  unfold receiveOne
  dsimp only
  repeat' split
  all_goals try (refine List.Sublist.trans ?_ (tryCurrentPhase_cand cfg now _))
  all_goals try dsimp only
  all_goals
    first
    | exact List.Sublist.refl _
    | (simp only [getRound_candidates, setRound, skipToDecide_candidates]
       exact List.Sublist.refl _)
    | (refine List.Sublist.trans ?_ (updateCandidatesFromQuality_cand _)
       simp only [getRound_candidates]
       exact List.Sublist.refl _)
    | (rename_i i3 heq h
       have h4 := congrArg Prod.fst heq
       dsimp only at h4
       rw [← h4]
       refine List.Sublist.trans ?_ (tryCommit_cand cfg now _ msg.vote.round)
       simp only [getRound_candidates, setRound]
       exact List.Sublist.refl _)
    | (rename_i i3 r heq
       have h4 := congrArg Prod.fst heq
       dsimp only at h4
       rw [← h4]
       refine List.Sublist.trans ?_ (tryCommit_cand cfg now _ msg.vote.round)
       simp only [getRound_candidates, setRound]
       exact List.Sublist.refl _)

theorem instReceive_cand (cfg : Config) (i : Instance) (now : Int) (msg : GMessage) :
    List.Sublist i.candidates (instReceive cfg i now msg).1.candidates := by
  unfold instReceive
  split
  · exact List.Sublist.refl _
  · split
    all_goals rename_i heq
    all_goals have h4 := congrArg (fun p => p.1) heq
    all_goals dsimp only at h4
    · rw [← h4]; exact receiveOne_cand cfg now i msg
    · rw [← h4]; exact receiveOne_cand cfg now i msg
    · split
      · refine List.Sublist.trans ?_ (postReceive_cand cfg now _ _)
        rw [← h4]
        exact receiveOne_cand cfg now i msg
      · rw [← h4]
        exact receiveOne_cand cfg now i msg

theorem receiveManyLoop_cand (cfg : Config) (now : Int) (msgs : List GMessage) :
    ∀ (i : Instance) (rounds : List Nat),
      List.Sublist i.candidates (receiveManyLoop cfg now msgs i rounds).1.candidates := by
  induction msgs with
  | nil => intro i rounds; exact List.Sublist.refl _
  | cons msg rest ih =>
    intro i rounds
    simp only [receiveManyLoop]
    split
    all_goals rename_i heq
    all_goals have h4 := congrArg (fun p => p.1) heq
    all_goals dsimp only at h4
    · refine List.Sublist.trans ?_ (ih _ _)
      rw [← h4]
      exact receiveOne_cand cfg now i msg
    · split
      · refine List.Sublist.trans ?_ (ih _ _)
        rw [← h4]
        exact receiveOne_cand cfg now i msg
      · rw [← h4]
        exact receiveOne_cand cfg now i msg
    · rw [← h4]
      exact receiveOne_cand cfg now i msg

theorem instReceiveMany_cand (cfg : Config) (i : Instance) (now : Int)
    (msgs : List GMessage) :
    List.Sublist i.candidates (instReceiveMany cfg i now msgs).1.candidates := by
  unfold instReceiveMany
  split
  · exact List.Sublist.refl _
  · split
    all_goals rename_i heq
    all_goals have h4 := congrArg (fun p => p.1) heq
    all_goals dsimp only at h4
    · refine List.Sublist.trans ?_ (postReceive_cand cfg now _ _)
      rw [← h4]
      exact receiveManyLoop_cand cfg now msgs i []
    · rw [← h4]
      exact receiveManyLoop_cand cfg now msgs i []

theorem instReceiveAlarm_cand (cfg : Config) (i : Instance) (now : Int) :
    List.Sublist i.candidates (instReceiveAlarm cfg i now).1.candidates :=
  tryCurrentPhase_cand cfg now i

theorem instStart_cand (cfg : Config) (i : Instance) (now : Int) :
    List.Sublist i.candidates (instStart cfg i now).1.candidates := by
  unfold instStart
  rw [beginQuality_candidates]

/-- Reachability of an instance state from an initial state by the public
entry points (`Start`, `Receive`, `ReceiveMany`, `ReceiveAlarm`), which
between them invoke every internal phase transition. -/
inductive Reachable (cfg : Config) : Instance → Instance → Prop
  | refl (i : Instance) : Reachable cfg i i
  | start (i j : Instance) (now : Int) :
      Reachable cfg i j → Reachable cfg i (instStart cfg j now).1
  | receive (i j : Instance) (now : Int) (msg : GMessage) :
      Reachable cfg i j → Reachable cfg i (instReceive cfg j now msg).1
  | receiveMany (i j : Instance) (now : Int) (msgs : List GMessage) :
      Reachable cfg i j → Reachable cfg i (instReceiveMany cfg j now msgs).1
  | alarm (i j : Instance) (now : Int) :
      Reachable cfg i j → Reachable cfg i (instReceiveAlarm cfg j now).1

theorem reachable_cand (cfg : Config) (i j : Instance) (h : Reachable cfg i j) :
    List.Sublist i.candidates j.candidates := by
  induction h with
  | refl => exact List.Sublist.refl _
  | start j now _ ih => exact ih.trans (instStart_cand cfg j now)
  | receive j now msg _ ih => exact ih.trans (instReceive_cand cfg j now msg)
  | receiveMany j now msgs _ ih => exact ih.trans (instReceiveMany_cand cfg j now msgs)
  | alarm j now _ ih => exact ih.trans (instReceiveAlarm_cand cfg j now)

/-- C5: at creation the candidate set is exactly the base chain's key;
`Receive`, `ReceiveMany`, `ReceiveAlarm` and `Start` (with every internal
phase transition they trigger) only ever append to the candidate list,
never removing an element (stated as: the old list is a sublist of the
new one); consequently the base chain's key is a member of the candidate
set in every reachable state. -/
theorem c5_monotonic_candidates (cfg : Config) :
    (∀ (iid : Nat) (input : ECChain) (data : SupplementalData) (pt : PowerTable)
        (beacon : Bytes) (i0 : Instance),
      newInstance iid input data pt beacon = some i0 →
      i0.candidates = [chainKey (chainBaseChain input)]) ∧
    (∀ (i : Instance) (now : Int) (msg : GMessage),
      List.Sublist i.candidates (instReceive cfg i now msg).1.candidates) ∧
    (∀ (i : Instance) (now : Int) (msgs : List GMessage),
      List.Sublist i.candidates (instReceiveMany cfg i now msgs).1.candidates) ∧
    (∀ (i : Instance) (now : Int),
      List.Sublist i.candidates (instReceiveAlarm cfg i now).1.candidates) ∧
    (∀ (i : Instance) (now : Int),
      List.Sublist i.candidates (instStart cfg i now).1.candidates) ∧
    (∀ (iid : Nat) (input : ECChain) (data : SupplementalData) (pt : PowerTable)
        (beacon : Bytes) (i0 j : Instance),
      newInstance iid input data pt beacon = some i0 → Reachable cfg i0 j →
      chainKey (chainBaseChain input) ∈ j.candidates) := by
  have hnew : ∀ (iid : Nat) (input : ECChain) (data : SupplementalData) (pt : PowerTable)
      (beacon : Bytes) (i0 : Instance),
      newInstance iid input data pt beacon = some i0 →
      i0.candidates = [chainKey (chainBaseChain input)] := by
    intro iid input data pt beacon i0 h
    unfold newInstance at h
    split at h
    · exact absurd h (by simp)
    · injection h with h
      rw [← h]
  refine ⟨hnew, instReceive_cand cfg, instReceiveMany_cand cfg,
    instReceiveAlarm_cand cfg, instStart_cand cfg, ?_⟩
  intro iid input data pt beacon i0 j h hr
  have hmem : chainKey (chainBaseChain input) ∈ i0.candidates := by
    rw [hnew iid input data pt beacon i0 h]
    exact List.mem_singleton.mpr rfl
  exact (reachable_cand cfg i0 j hr).subset hmem

/-- An initial instance as built by `newInstance 0 [t0] wSupp wPT []`. -/
def wI0 : Instance :=
  { instanceID := 0, input := [t0], powerTable := wPT, beacon := [],
    round := 0, phase := .initialPhase, phaseTimeout := 0,
    rebroadcastTimeout := none, rebroadcastAttempts := 0,
    supplementalData := wSupp, proposal := [t0], value := [],
    candidates := [chainKey (chainBaseChain [t0])], terminationValue := none,
    quality := newQuorumState wPT, rounds := [(0, newRoundState wPT)],
    decision := newQuorumState wPT }

theorem c5_monotonic_candidates_witness :
    wI0.candidates = [chainKey (chainBaseChain [t0])] ∧
    chainKey (chainBaseChain [t0]) ∈ (instReceiveAlarm wCfg wI0 0).1.candidates :=
  ⟨(c5_monotonic_candidates wCfg).1 0 [t0] wSupp wPT [] wI0 rfl,
   (c5_monotonic_candidates wCfg).2.2.2.2.2 0 [t0] wSupp wPT [] wI0 _ rfl
     (Reachable.alarm wI0 wI0 0 (Reachable.refl wI0))⟩

/-- A power table with a single actor holding all 10 units of scaled
power, so its lone QUALITY message alone is a strong quorum. -/
def wPT6 : PowerTable :=
  { entries := [1], scaledPower := [10], scaledTotal := 10,
    lookup := [(1, 0)] }

/-- The instance built by `newInstance 0 [t0, t1, t2] wSupp wPT6 []`
(checked by `wI6_newInstance`). -/
def wI6 : Instance :=
  { instanceID := 0, input := [t0, t1, t2], powerTable := wPT6, beacon := [],
    round := 0, phase := .initialPhase, phaseTimeout := 0,
    rebroadcastTimeout := none, rebroadcastAttempts := 0,
    supplementalData := wSupp, proposal := [t0, t1, t2], value := [],
    candidates := [chainKey (chainBaseChain [t0, t1, t2])],
    terminationValue := none, quality := newQuorumState wPT6,
    rounds := [(0, newRoundState wPT6)], decision := newQuorumState wPT6 }

theorem wI6_newInstance : newInstance 0 [t0, t1, t2] wSupp wPT6 [] = some wI6 := rfl

/-- `wI6` after `Start`: QUALITY phase, quality timeout pending. -/
def wS6 : Instance := (instStart wCfg wI6 0).1

/-- The all-powerful actor's own QUALITY message for the full input. -/
def wMsg6 : GMessage :=
  { sender := 1,
    vote :=
      { instanceID := 0, round := 0, phase := .qualityPhase,
        supplementalData := wSupp, value := [t0, t1, t2] },
    signature := [], ticket := [], justification := none }

/-- C6: `Receive` is NOT idempotent.  On the started single-actor
instance `wS6`, delivering the same valid QUALITY message twice diverges
from delivering it once: the first delivery reaches strong QUALITY quorum
and moves to PREPARE, but `addCandidatePrefixes` stops after the first
added prefix (only the full input's key joins `candidates`); the second
delivery of the very same message then runs
`updateCandidatesFromQuality`, which adds the key of the two-tipset
prefix `[t0, t1]` that the first delivery skipped.  Both deliveries
return nil errors, so the message passes validation both times. -/
theorem c6_receive_not_idempotent :
    (instReceive wCfg wS6 5 wMsg6).2 = Res.ok ∧
    (instReceive wCfg (instReceive wCfg wS6 5 wMsg6).1 5 wMsg6).2 = Res.ok ∧
    (chainKey [t0, t1] ∈ (instReceive wCfg wS6 5 wMsg6).1.candidates) = False ∧
    (chainKey [t0, t1] ∈
      (instReceive wCfg (instReceive wCfg wS6 5 wMsg6).1 5 wMsg6).1.candidates) = True ∧
    (instReceive wCfg (instReceive wCfg wS6 5 wMsg6).1 5 wMsg6).1 ≠
      (instReceive wCfg wS6 5 wMsg6).1 := by
  refine ⟨by decide, by decide, by decide, by decide, by decide⟩
